import Mathlib

/-!
Shallow embedding of the task/subtask scheduling core of
`todo_with_subtask_v2.py` (class `TaskManager`).

Modelling conventions:
* A date is a `Nat`: the number of calendar days since 2000-01-01 (the
  program's reserved sentinel date `QDate(2000, 1, 1)`, which is also the
  minimum date of the end-date widgets).  2000-01-01 was a Saturday, and
  Python's `date.weekday()` numbers Monday as 0, so `weekday d = (d + 5) % 7`.
* The Qt table is a list of `Row` records (one per table row, in table
  order); the widget contents become record fields.  `parent_map`,
  `children_map` and `case_counters` become association lists.
* Each UI handler is translated as a function from state to state following
  the handler's explicit call chain, including the synchronous signal
  re-entrancy of programmatic widget writes: a `QDateEdit.setDate` fires its
  `dateChanged` handlers and a `QTableWidgetItem.setText` fires `itemChanged`
  (via `QTableWidgetItem::setData`, which returns early on an equal value)
  exactly when the written value differs from the current one.  The only
  writes exempt from this are the ones the code wraps in `blockSignals`
  (the milestone checkboxes of `update_parent_status` and the rebuilt combo
  boxes), and the writes whose connected handlers do nothing to the model
  (`check_end_date` restyles a widget; a progress bar's `setValue` has no
  connected slot).
* The whole event-driven core — `update_weight`,
  `update_end_date_from_weight_by_row`, the date-widget `dateChanged`
  handler lists, `update_parent_on_row_change` and the roll-up
  `update_parent_status_by_case` / `update_parent_status` /
  `update_progress` recursion — is one mutually re-entrant call graph, so it
  is translated as a single interpreter `runSig` over an event type `Sig`,
  structurally recursive on an explicit fuel argument: one unit of fuel is
  consumed per nested handler invocation.  Every loop in the real program
  terminates because the signals are equality-gated, so a large enough fuel
  computes the real (settled) result.
-/

/-- Python `date.weekday()` for a day offset from 2000-01-01 (a Saturday):
Monday = 0, ..., Sunday = 6. -/
def weekday (d : Nat) : Nat := (d + 5) % 7

/-- Counts weekdays among the `n` consecutive days starting at `cur`;
translates the counting loop of `business_days_inclusive`. -/
def countWeekdaysFrom (cur : Nat) : Nat → Nat
  | 0 => 0
  | n + 1 => (if weekday cur < 5 then 1 else 0) + countWeekdaysFrom (cur + 1) n

/-- `business_days_inclusive(start_date, end_date)`: 0 if `end < start`, else
the number of weekdays (Mon-Fri) in the closed interval `[start, end]`. -/
def businessDaysInclusive (s e : Nat) : Nat :=
  if e < s then 0 else countWeekdaysFrom s (e - s + 1)

/-- The first weekday strictly after `d`.  The while-loop of the day-weight
branch (`current += timedelta(days=1); if current.weekday() < 5: added += 1`)
advances one calendar day at a time and bumps its counter exactly when it
lands on a weekday; since at most two weekend days are consecutive, each
counter bump moves `current` to the next weekday strictly after its previous
position, which is `d + 1`, `d + 2` or `d + 3`. -/
def nextWeekdayAfter (d : Nat) : Nat :=
  if weekday (d + 1) < 5 then d + 1
  else if weekday (d + 2) < 5 then d + 2
  else d + 3

/-- Iterates `nextWeekdayAfter` `n` times: the loop of
`update_end_date_from_weight_by_row` performs `days - 1` counter bumps. -/
def addWeekdays (current : Nat) : Nat → Nat
  | 0 => current
  | n + 1 => addWeekdays (nextWeekdayAfter current) n

/-- End date computed by the `d` branch of
`update_end_date_from_weight_by_row` for `days ≥ 1`: starting at
`current = start_date` with `added = 1`, the loop performs `days - 1`
weekday advances. -/
def dayWeightEnd (startDate : Nat) (days : Nat) : Nat :=
  addWeekdays startDate (days - 1)

/-- `True` for Gregorian leap years (`datetime` uses the proleptic Gregorian
calendar). -/
def isLeap (y : Nat) : Bool := (y % 4 == 0 && y % 100 != 0) || y % 400 == 0

/-- Number of days in year `y`. -/
def daysInYear (y : Nat) : Nat := if isLeap y then 366 else 365

/-- Resolves a day offset from 2000-01-01 to `(year, day-of-year)`.  The
first argument is fuel; `d` itself is always sufficient fuel because each
step consumes at least 365 days. -/
def yearDoyAux : Nat → Nat → Nat → Nat × Nat
  | 0, y, d => (y, d)
  | fuel + 1, y, d =>
      if d < daysInYear y then (y, d) else yearDoyAux fuel (y + 1) (d - daysInYear y)

/-- Year and day-of-year (0-based) of a day offset from 2000-01-01. -/
def yearDoy (d : Nat) : Nat × Nat := yearDoyAux d 2000 d

/-- The `.year` field of the Python date at day offset `d`. -/
def yearOf (d : Nat) : Nat := (yearDoy d).1

/-- Month lengths, January first. -/
def monthLengths (leap : Bool) : List Nat :=
  [31, if leap then 29 else 28, 31, 30, 31, 30, 31, 31, 30, 31, 30, 31]

/-- Converts a 0-based day-of-year to a `(month, day)` pair, months counted
from `m`. -/
def monthDayFrom (doy : Nat) (months : List Nat) (m : Nat) : Nat × Nat :=
  match months with
  | [] => (m, doy + 1)
  | len :: rest => if doy < len then (m, doy + 1) else monthDayFrom (doy - len) rest (m + 1)

/-- Zero-pads a number to two digits, as in the `MM` / `dd` fields of the
Qt date format string `"yyyy-MM-dd"`. -/
def pad2 (n : Nat) : String := if n < 10 then "0" ++ toString n else toString n

/-- `date.toString("yyyy-MM-dd")` for the date at day offset `d`. -/
def isoOfDay (d : Nat) : String :=
  let yd := yearDoy d
  let md := monthDayFrom yd.2 (monthLengths (isLeap yd.1)) 1
  toString yd.1 ++ "-" ++ pad2 md.1 ++ "-" ++ pad2 md.2

/-- Serialization of a date cell in `save_tasks`:
`date.toString("yyyy-MM-dd") if date.year() != 2000 else ""`. -/
def serializeDate (d : Nat) : String :=
  if yearOf d ≠ 2000 then isoOfDay d else ""

/-- Python `str.strip()` whitespace (ASCII part). -/
def isPySpace (c : Char) : Bool :=
  c = ' ' || c = '\t' || c = '\n' || c = '\x0d' || c = '\x0b' || c = '\x0c'

/-- Python `str.strip()`: drops whitespace from both ends. -/
def stripChars (cs : List Char) : List Char :=
  ((cs.dropWhile isPySpace).reverse.dropWhile isPySpace).reverse

/-- Python `str.lower()` on one ASCII character. -/
def lowerChar (c : Char) : Char :=
  if 65 ≤ c.toNat && c.toNat ≤ 90 then Char.ofNat (c.toNat + 32) else c

/-- `text = weight_item.text().strip().lower()` as a character list. -/
def normalizeWeightText (s : String) : List Char :=
  (stripChars s.data).map lowerChar

/-- Digit accumulator of the Python `int()` literal grammar: digits with
single underscores allowed between digits. -/
def pyIntAux (acc : Nat) : List Char → Option Nat
  | [] => some acc
  | c :: rest =>
      if c.isDigit then pyIntAux (acc * 10 + (c.toNat - 48)) rest
      else if c = '_' then
        match rest with
        | [] => none
        | d :: rest2 =>
            if d.isDigit then pyIntAux (acc * 10 + (d.toNat - 48)) rest2 else none
      else none

/-- Parses a nonempty digit string (underscores between digits allowed). -/
def pyIntDigits (cs : List Char) : Option Nat :=
  match cs with
  | [] => none
  | c :: _ => if c.isDigit then pyIntAux 0 cs else none

/-- Python `int()` on a character list: optional surrounding whitespace,
optional sign, then a digit string; `none` models the `ValueError` caught by
the bare `except`. -/
def pyIntChars (cs : List Char) : Option Int :=
  match stripChars cs with
  | [] => none
  | c :: rest =>
      if c = '-' then (pyIntDigits rest).map (fun n => -(n : Int))
      else if c = '+' then (pyIntDigits rest).map (fun n => (n : Int))
      else (pyIntDigits (c :: rest)).map (fun n => (n : Int))

/-- Python `int(s)` on a string. -/
def pyInt (s : String) : Option Int := pyIntChars s.data

/-- One table row of the `TaskManager` grid.  `steps` is the list of the 11
milestone checkboxes (`True` = checked); `stepsEnabled` is their common
enabled/editable flag; `progress` the progress-bar value. -/
structure Row where
  caseId : String
  project : String
  nature : String
  name : String
  parentCase : String
  refNo : String
  dependency : String
  startDate : Nat
  endDate : Nat
  weight : String
  steps : List Bool
  stepsEnabled : Bool
  progress : Nat
deriving Repr, DecidableEq

/-- A default row, used only as the fallback of `List.getD` in concrete
evaluations. -/
def row0 : Row :=
  { caseId := "", project := "", nature := "", name := "", parentCase := ""
    refNo := "", dependency := "", startDate := 0, endDate := 0, weight := ""
    steps := [false, false, false, false, false, false, false, false, false, false, false]
    stepsEnabled := true, progress := 0 }

/-- The mutable state of `TaskManager`: the table rows plus the three
case-keyed dictionaries. -/
structure TaskState where
  rows : List Row
  parentMap : List (String × String)
  childrenMap : List (String × List String)
  caseCounters : List (String × Nat)
deriving Repr, DecidableEq

/-- Python `dict.get`: first binding of `k`, if any. -/
def lookupStr {β : Type} (m : List (String × β)) (k : String) : Option β :=
  match m with
  | [] => none
  | kv :: t => if kv.1 = k then some kv.2 else lookupStr t k

/-- Replaces the element at index `i` by `f` applied to it (identity when
out of range). -/
def listUpdateAt {α : Type} (l : List α) (i : Nat) (f : α → α) : List α :=
  match l, i with
  | [], _ => []
  | x :: xs, 0 => f x :: xs
  | x :: xs, n + 1 => x :: listUpdateAt xs n f

/-- Updates the row at index `i`. -/
def updateRowAt (st : TaskState) (i : Nat) (f : Row → Row) : TaskState :=
  { st with rows := listUpdateAt st.rows i f }

/-- Index of the first row whose Case # cell is `c`. -/
def findCaseIdx (c : String) : List Row → Option Nat
  | [] => none
  | r :: rest => if r.caseId = c then some 0 else (findCaseIdx c rest).map (· + 1)

/-- `find_row_by_case`: `None` for the empty case, else the first row whose
Case # cell holds `c`. -/
def findRowByCase (st : TaskState) (c : String) : Option Nat :=
  if c = "" then none else findCaseIdx c st.rows

/-- `get_case_at_row`: the Case # text of row `row` (empty when out of
range). -/
def getCaseAtRow (st : TaskState) (row : Nat) : String :=
  match st.rows[row]? with
  | some r => r.caseId
  | none => ""

/-- Whether milestone checkbox `i` of row record `r` is checked; a missing
checkbox (index out of range) counts as unchecked. -/
def stepChecked (r : Row) (i : Nat) : Bool := r.steps.getD i false

/-- Whether checkbox `i` of the row at index `rowIdx` is checked, as read by
the `all_checked` loop of `update_parent_status`: `if cb and not
cb.isChecked()` only falsifies when the checkbox exists, so a missing row
does not falsify the conjunction. -/
def rowStepChecked (st : TaskState) (rowIdx i : Nat) : Bool :=
  match st.rows[rowIdx]? with
  | some r => stepChecked r i
  | none => true

/-- `update_weight` body as a pure function of the two dates: empty weight
when the end date's year is 2000 (the unscheduled sentinel), else
`f"{business_days_inclusive(start, end)}d"`. -/
def endToWeight (s e : Nat) : String :=
  if yearOf e = 2000 then "" else toString (businessDaysInclusive s e) ++ "d"

/-- Python `min` of a nonempty list (0 on the empty list, never used). -/
def listMin (l : List Nat) : Nat :=
  match l with
  | [] => 0
  | x :: xs => xs.foldl Nat.min x

/-- Python `max` of a nonempty list (0 on the empty list, never used). -/
def listMax (l : List Nat) : Nat :=
  match l with
  | [] => 0
  | x :: xs => xs.foldl Nat.max x

/-- The `(start, end)` pairs gathered by `update_parent_status` from the
child rows: a child contributes exactly when its end date's year is not
2000. -/
def gatherChildDates (st : TaskState) (childRows : List Nat) : List (Nat × Nat) :=
  childRows.filterMap (fun r =>
    match st.rows[r]? with
    | some rr => if yearOf rr.endDate = 2000 then none else some (rr.startDate, rr.endDate)
    | none => none)

/-- Number of checked milestone checkboxes of row `row` (the `checked`
counter of `update_progress`). -/
def countChecked (st : TaskState) (row : Nat) : Nat :=
  match st.rows[row]? with
  | some r => ((List.range 11).filter (fun i => stepChecked r i)).length
  | none => 0

/-- The progress-bar write of `update_progress`:
`percent = int((checked / 11) * 100)`, which equals `checked * 100 / 11` in
integer arithmetic for `0 ≤ checked ≤ 11`. -/
def progressWrite (st : TaskState) (row : Nat) : TaskState :=
  updateRowAt st row (fun r => { r with progress := countChecked st row * 100 / 11 })

/-- The synchronous signal/handler events of the `TaskManager` call graph.
Each constructor names one handler entry: `uw row` is `update_weight(row)`;
`ue row` is `update_end_date_from_weight_by_row(row)`; `endSet row v` is an
`end_date.setDate(v)` on row `row`'s end widget together with its
`dateChanged` handler list `[check_end_date, update_weight,
update_parent_on_row_change]`; `startSet row v` is a `start_date.setDate(v)`
together with its `dateChanged` handler
`update_end_date_from_weight_by_row(row)`; `rowParent row` is
`update_parent_on_row_change(row)` (also the identical parent-update tails
of `update_progress` and `update_end_date_from_weight_by_row`);
`cascade pc` is `update_parent_status_by_case(pc)` with the bodies of
`update_parent_status` and `update_progress` inlined. -/
inductive Sig where
  | uw (row : Nat)
  | ue (row : Nat)
  | endSet (row : Nat) (v : Nat)
  | startSet (row : Nat) (v : Nat)
  | rowParent (row : Nat)
  | cascade (pc : String)

/-- Interpreter of the re-entrant handler call graph, structurally
recursive on an explicit fuel argument (one unit per nested handler
invocation; with fuel 0 a pending invocation does nothing).  The widget
writes are equality-gated: `setDate` emits `dateChanged`, and `setText`
(through `QTableWidgetItem::setData`) emits `itemChanged` into
`handle_weight_change`, exactly when the written value differs from the
stored one.  The milestone checkbox writes of `update_parent_status` are
wrapped in `blockSignals` and therefore plain field updates; `check_end_date`
and the progress-bar write touch no model state. -/
def runSig : Nat → TaskState → Sig → TaskState
  | 0, st, _ => st
  | fuel + 1, st, Sig.uw row =>
      match st.rows[row]? with
      | none => st
      | some r =>
          let w2 := endToWeight r.startDate r.endDate
          if w2 = r.weight then st
          else runSig fuel (updateRowAt st row (fun rr => { rr with weight := w2 })) (Sig.ue row)
  | fuel + 1, st, Sig.ue row =>
      match st.rows[row]? with
      | none => st
      | some r =>
          let text := normalizeWeightText r.weight
          if text = [] then runSig fuel st (Sig.endSet row 0)
          else
            let st1 :=
              if text.getLast? = some 'd' then
                match pyIntChars text.dropLast with
                | none => st
                | some days =>
                    if days ≤ 0 then runSig fuel st (Sig.endSet row r.startDate)
                    else runSig fuel st (Sig.endSet row (dayWeightEnd r.startDate days.toNat))
              else if text.getLast? = some 'w' then
                match pyIntChars text.dropLast with
                | none => st
                | some weeks => runSig fuel st (Sig.endSet row ((r.startDate : Int) + 7 * weeks).toNat)
              else st
            let st2 := runSig fuel st1 (Sig.uw row)
            runSig fuel st2 (Sig.rowParent row)
  | fuel + 1, st, Sig.endSet row v =>
      match st.rows[row]? with
      | none => st
      | some r =>
          if v = r.endDate then st
          else
            let st1 := updateRowAt st row (fun rr => { rr with endDate := v })
            let st2 := runSig fuel st1 (Sig.uw row)
            runSig fuel st2 (Sig.rowParent row)
  | fuel + 1, st, Sig.startSet row v =>
      match st.rows[row]? with
      | none => st
      | some r =>
          if v = r.startDate then st
          else runSig fuel (updateRowAt st row (fun rr => { rr with startDate := v })) (Sig.ue row)
  | fuel + 1, st, Sig.rowParent row =>
      match lookupStr st.parentMap (getCaseAtRow st row) with
      | none => st
      | some pc => runSig fuel st (Sig.cascade pc)
  | fuel + 1, st, Sig.cascade pc =>
      match findRowByCase st pc with
      | none => st
      | some parentRow =>
          let childrenCases := (lookupStr st.childrenMap (getCaseAtRow st parentRow)).getD []
          if childrenCases.isEmpty then
            updateRowAt st parentRow (fun r => { r with stepsEnabled := true })
          else
            let childRows := childrenCases.filterMap (fun c => findRowByCase st c)
            let contributing := gatherChildDates st childRows
            let st1 :=
              if contributing.isEmpty then st
              else
                let stA := runSig fuel st (Sig.startSet parentRow (listMin (contributing.map Prod.fst)))
                let stB := runSig fuel stA (Sig.endSet parentRow (listMax (contributing.map Prod.snd)))
                runSig fuel stB (Sig.uw parentRow)
            let st2 := updateRowAt st1 parentRow (fun r =>
              { r with steps := (List.range 11).map (fun i => childRows.all (fun cr => rowStepChecked st1 cr i)),
                       stepsEnabled := false })
            let st3 := progressWrite st2 parentRow
            runSig fuel st3 (Sig.rowParent parentRow)

/-- `update_weight(row)` with live signals: the Weight cell is rewritten
from the row's start and end dates; when the text actually changes,
`itemChanged` fires `handle_weight_change`, which re-enters
`update_end_date_from_weight_by_row(row)`. -/
def updateWeightRow (fuel : Nat) (st : TaskState) (row : Nat) : TaskState :=
  runSig fuel st (Sig.uw row)

/-- `update_parent_status_by_case(pc)`: the entry of the roll-up cascade.
One unit of fuel is consumed per nested handler invocation;
`update_parent_status` ends in `update_progress(parent_row)`, whose tail
recurses into `update_parent_status_by_case` of the grandparent's case. -/
def updateParentStatusByCase (fuel : Nat) (st : TaskState) (pc : String) : TaskState :=
  runSig fuel st (Sig.cascade pc)

/-- `update_progress(row)`: writes the row's progress bar, then rolls the
edit up into the parent when the row has one. -/
def updateProgress (fuel : Nat) (st : TaskState) (row : Nat) : TaskState :=
  runSig fuel (progressWrite st row) (Sig.rowParent row)

/-- A user toggle of milestone checkbox `i` of row `row` to value `b`: the
checkbox state changes, then its `stateChanged` handler runs
`update_progress(row)` (a click always changes the checkbox state, so the
handler always fires). -/
def toggleStep (fuel : Nat) (st : TaskState) (row i : Nat) (b : Bool) : TaskState :=
  updateProgress fuel (updateRowAt st row (fun r => { r with steps := r.steps.set i b })) row

/-- A user edit of the end-date widget of row `row`: `dateChanged` fires
its handler list `[check_end_date, update_weight,
update_parent_on_row_change]` exactly when the picked date differs from the
current one — the same event as a programmatic `setDate`. -/
def editEndDate (fuel : Nat) (st : TaskState) (row : Nat) (newEnd : Nat) : TaskState :=
  runSig fuel st (Sig.endSet row newEnd)

/-- `update_end_date_from_weight_by_row(row)` with live signals (the entry
point that `handle_weight_change` reaches after a weight-cell edit): parses
the Weight cell (stripped, lowercased); empty text resets the end date to
the sentinel and returns; a `d` suffix advances by business days counting
the start itself as the first; a `w` suffix adds `7 * weeks` calendar days
(the end-date widget clamps at its minimum 2000-01-01, i.e. at 0);
unparsable numbers fall through; finally `update_weight(row)` runs and, for
a child row, the parent's aggregates are recomputed.  Each `setDate` and
`setText` on the way fires its own handlers when it changes the value. -/
def updateEndDateFromWeight (fuel : Nat) (st : TaskState) (row : Nat) : TaskState :=
  runSig fuel st (Sig.ue row)

/-- The writes `update_parent_status` performs on a parent row with a
nonempty children list, up to its final `update_progress` call, with live
signals: with a nonempty contributing set, `setDate(min)` on the start
widget (firing the row's start handler), `setDate(max)` on the end widget
(firing its handler list) and `update_weight` (whose `setText` can re-enter
the end derivation); then the milestone aggregation loop, whose checkbox
writes are wrapped in `blockSignals`. -/
def upsAggWrites (fuel : Nat) (st : TaskState) (parentRow : Nat) : TaskState :=
  let parentCase := getCaseAtRow st parentRow
  let childrenCases := (lookupStr st.childrenMap parentCase).getD []
  let childRows := childrenCases.filterMap (fun c => findRowByCase st c)
  let contributing := gatherChildDates st childRows
  let st1 :=
    if contributing.isEmpty then st
    else
      let stA := runSig fuel st (Sig.startSet parentRow (listMin (contributing.map Prod.fst)))
      let stB := runSig fuel stA (Sig.endSet parentRow (listMax (contributing.map Prod.snd)))
      runSig fuel stB (Sig.uw parentRow)
  updateRowAt st1 parentRow (fun r =>
    { r with steps := (List.range 11).map (fun i => childRows.all (fun cr => rowStepChecked st1 cr i)),
             stepsEnabled := false })

/-- `refresh_dependencies`: every dependency combo box is rebuilt from the
current list of Case # cells; a previously selected case that no longer
appears resets to the empty selection (a non-editable `QComboBox` keeps the
first item, the empty entry, when `setCurrentText` finds no match). -/
def refreshDependencies (st : TaskState) : TaskState :=
  let cases := st.rows.map Row.caseId
  { st with rows := st.rows.map (fun r =>
      { r with dependency := if r.dependency = "" ∨ r.dependency ∈ cases then r.dependency else "" }) }

/-- `delete_row_by_case(case)`: drops the case's children list, drops
`parent_map` entries whose key or value is the case, removes the first row
with that Case #, and scrubs the case out of every remaining children
list. -/
def deleteRowByCase (st : TaskState) (c : String) : TaskState :=
  let cm1 := st.childrenMap.filter (fun kv => kv.1 ≠ c)
  let pm1 := st.parentMap.filter (fun kv => ¬(kv.2 = c ∨ kv.1 = c))
  let rows1 :=
    match findRowByCase st c with
    | some i => st.rows.eraseIdx i
    | none => st.rows
  { rows := rows1, parentMap := pm1,
    childrenMap := cm1.map (fun kv => (kv.1, kv.2.filter (fun x => x ≠ c))),
    caseCounters := st.caseCounters }

/-- `handle_delete_button_clicked` for the row at index `row`; `confirmed`
is the user's answer to the cascade question (only asked when the row's case
has children).  A caseless row is simply removed; a parent whose deletion is
declined causes no mutation; otherwise the direct children are deleted first
(in list order), then the row itself, and the dependency combos are
rebuilt. -/
def handleDeleteButtonClicked (st : TaskState) (row : Nat) (confirmed : Bool) : TaskState :=
  let c := getCaseAtRow st row
  if c = "" then
    refreshDependencies { st with rows := st.rows.eraseIdx row }
  else
    let children := (lookupStr st.childrenMap c).getD []
    if children.isEmpty then
      refreshDependencies (deleteRowByCase st c)
    else
      if confirmed then
        let st1 := children.foldl (fun s cc => deleteRowByCase s cc) st
        refreshDependencies (deleteRowByCase st1 c)
      else st

/-! Specification-side characterizations and ancestor-chain bookkeeping. -/

/-- Specification wording for the day-weight rule: `d` is the `n`-th weekday
(Mon-Fri) on or after `start`, inclusive of `start` — i.e. `d` is a weekday
not before `start` and the closed interval `[start, d]` contains exactly `n`
weekdays. -/
def isNthWeekdayOnOrAfter (start n d : Nat) : Prop :=
  start ≤ d ∧ weekday d < 5 ∧ businessDaysInclusive start d = n

instance (start n d : Nat) : Decidable (isNthWeekdayOnOrAfter start n d) :=
  inferInstanceAs (Decidable (_ ∧ _ ∧ _))

/-- Whether a normalized weight text matches `<int>d` or `<int>w`: the forms
that `update_end_date_from_weight_by_row` acts on. -/
def weightTextMatches (t : List Char) : Bool :=
  (t.getLast? = some 'd' && (pyIntChars t.dropLast).isSome) ||
  (t.getLast? = some 'w' && (pyIntChars t.dropLast).isSome)

/-- The chain of ancestor cases that the roll-up cascade can visit when
started (with the given fuel) on case `c`: `c` itself, then the chain of the
parent-map parent of `c`. -/
def chainCases (pm : List (String × String)) : Nat → String → List String
  | 0, _ => []
  | fuel + 1, c =>
      c :: (match lookupStr pm c with
            | none => []
            | some p => chainCases pm fuel p)

/-- A fresh row as `_add_row` creates it, with the fields under test set. -/
def mkRow (c p : String) (s e : Nat) (w : String) : Row :=
  { row0 with caseId := c, parentCase := p, startDate := s, endDate := e, weight := w }

/-- One task with weight `"1d"` starting on Saturday 2024-03-02. -/
def stateC1 : TaskState :=
  { rows := [mkRow "T1" "" 8827 0 "1d"],
    parentMap := [], childrenMap := [], caseCounters := [] }

/-- One task with weight `"1d"` starting on Saturday 2024-03-02 (round-trip
counterexample input). -/
def stateC2 : TaskState :=
  { rows := [mkRow "T2" "" 8827 0 "1d"],
    parentMap := [], childrenMap := [], caseCounters := [] }

/-- Parent `P` with child `C1` (all steps checked) and child `C2` (no steps
checked). -/
def stateC3 : TaskState :=
  { rows := [mkRow "P" "" 8766 8770 "",
             { mkRow "C1" "P" 8766 8770 "" with steps := List.replicate 11 true },
             mkRow "C2" "P" 8766 8770 ""],
    parentMap := [("C1", "P"), ("C2", "P")],
    childrenMap := [("P", ["C1", "C2"])],
    caseCounters := [] }

/-- Parent `P` with children `C1` (end Friday 2024-03-01 = day 8826) and
`C2` (end Sunday 2024-03-10 = day 8835); the claim's example dates. -/
def stateC4 : TaskState :=
  { rows := [mkRow "P" "" 8766 0 "",
             mkRow "C1" "P" 8766 8826 "",
             mkRow "C2" "P" 8770 8835 ""],
    parentMap := [("C1", "P"), ("C2", "P")],
    childrenMap := [("P", ["C1", "C2"])],
    caseCounters := [] }

/-- One task with a scheduled end date (Friday 2024-01-05) and empty weight
text. -/
def stateC7 : TaskState :=
  { rows := [mkRow "T7" "" 8766 8770 ""],
    parentMap := [], childrenMap := [], caseCounters := [] }

/-- One task with a scheduled end date and malformed weight text `"soon"`. -/
def stateC7b : TaskState :=
  { rows := [mkRow "T7" "" 8766 8770 "soon"],
    parentMap := [], childrenMap := [], caseCounters := [] }

/-- Three-level chain with data to propagate: grandparent `P`, parent `C`,
grandchild `G` with all steps checked. -/
def stateC8 : TaskState :=
  { rows := [mkRow "P" "" 8766 8770 "",
             mkRow "C" "P" 8766 8770 "",
             { mkRow "G" "C" 8766 8770 "" with steps := List.replicate 11 true }],
    parentMap := [("C", "P"), ("G", "C")],
    childrenMap := [("P", ["C"]), ("C", ["G"])],
    caseCounters := [] }

/-- Parent `P` whose steps were rolled up (disabled, some values retained)
with a single childless child `C`. -/
def stateC9 : TaskState :=
  { rows := [{ mkRow "P" "" 8766 8770 "" with
                 steps := List.replicate 11 true, stepsEnabled := false },
             { mkRow "C" "P" 8766 8770 "" with steps := List.replicate 11 true }],
    parentMap := [("C", "P")],
    childrenMap := [("P", ["C"])],
    caseCounters := [] }

/-- One task whose end date is 2000-06-15 (day 166): inside year 2000 but
not the reserved 2000-01-01 value. -/
def stateC10 : TaskState :=
  { rows := [mkRow "T10" "" 8766 166 ""],
    parentMap := [], childrenMap := [], caseCounters := [] }

/-- Malformed weight `"soon"` on a task whose end date lies before its
start date. -/
def stateC7c : TaskState :=
  { rows := [mkRow "T7" "" 8770 8766 "soon"],
    parentMap := [], childrenMap := [], caseCounters := [] }

/-- Malformed weight `"soon"` on a task whose end date is a Saturday
(day 8771). -/
def stateC7d : TaskState :=
  { rows := [mkRow "T7" "" 8766 8771 "soon"],
    parentMap := [], childrenMap := [], caseCounters := [] }

/-- Malformed weight `"soon"` on a task whose end date 2000-06-15 (day 166)
lies inside year 2000 but is not the reserved 2000-01-01. -/
def stateC7e : TaskState :=
  { rows := [mkRow "T7" "" 8766 166 "soon"],
    parentMap := [], childrenMap := [], caseCounters := [] }

/-! Derived notions used by the roll-up lemmas. -/

/-- Two states with identical maps and identical row cases at every index:
the roll-up cascade only rewrites non-identity row fields, so it preserves
this relation, which in turn fixes `findRowByCase` and `getCaseAtRow`. -/
def sameShape (st st2 : TaskState) : Prop :=
  st2.parentMap = st.parentMap ∧ st2.childrenMap = st.childrenMap ∧
    st2.rows.map Row.caseId = st.rows.map Row.caseId

/-- The milestone aggregation of `update_parent_status`: step `i` of the
parent becomes the conjunction of step `i` over all child rows. -/
def aggSteps (st : TaskState) (childRows : List Nat) : List Bool :=
  (List.range 11).map (fun i => childRows.all (fun cr => rowStepChecked st cr i))

/-- The row a signal writes directly (its nested handlers may write further
rows, but only upward along the ancestor cascade). -/
def sigRow : Sig → Option Nat
  | Sig.uw row => some row
  | Sig.ue row => some row
  | Sig.endSet row _ => some row
  | Sig.startSet row _ => some row
  | Sig.rowParent _ => none
  | Sig.cascade _ => none

/-- The case whose ancestor chain bounds the set of rows a signal's nested
cascades can write: the signalled row's own case for the row signals, the
target case for a cascade. -/
def sigBase (st : TaskState) : Sig → String
  | Sig.uw row => getCaseAtRow st row
  | Sig.ue row => getCaseAtRow st row
  | Sig.endSet row _ => getCaseAtRow st row
  | Sig.startSet row _ => getCaseAtRow st row
  | Sig.rowParent row => getCaseAtRow st row
  | Sig.cascade pc => pc

/-! Arithmetic lemmas about the business-day calendar. -/

theorem weekday_add (d k : Nat) : weekday (d + k) = (weekday d + k) % 7 := by
  unfold weekday
  omega

theorem weekday_lt (d : Nat) : weekday d < 7 := by
  unfold weekday
  omega

theorem bd_succ (s d : Nat) (h : s ≤ d) :
    businessDaysInclusive s (d + 1) =
      businessDaysInclusive s d + (if weekday (d + 1) < 5 then 1 else 0) := by
  unfold businessDaysInclusive
  rw [if_neg (by omega), if_neg (by omega)]
  have h1 : d + 1 - s + 1 = (d - s + 1) + 1 := by omega
  rw [h1]
  have h2 : ∀ n t, countWeekdaysFrom t (n + 1) =
      countWeekdaysFrom t n + (if weekday (t + n) < 5 then 1 else 0) := by
    intro n
    induction n with
    | zero => intro t; simp [countWeekdaysFrom]
    | succ m ih =>
        intro t
        rw [show m + 1 + 1 = (m + 1) + 1 from rfl]
        rw [countWeekdaysFrom, ih (t + 1), countWeekdaysFrom]
        have : t + 1 + m = t + (m + 1) := by omega
        rw [this]
        omega
  rw [h2]
  have : s + (d - s + 1) = d + 1 := by omega
  rw [this]

theorem bd_self (s : Nat) (h : weekday s < 5) : businessDaysInclusive s s = 1 := by
  unfold businessDaysInclusive
  rw [if_neg (by omega)]
  simp [countWeekdaysFrom, h]

theorem nextWeekdayAfter_gt (d : Nat) : d < nextWeekdayAfter d := by
  unfold nextWeekdayAfter
  split
  · omega
  · split <;> omega

theorem nextWeekdayAfter_weekday (d : Nat) : weekday (nextWeekdayAfter d) < 5 := by
  unfold nextWeekdayAfter
  split
  · assumption
  · split
    · assumption
    · rename_i h1 h2
      rw [weekday_add] at h1 h2 ⊢
      have := weekday_lt d
      omega

theorem bd_next (s d : Nat) (h : s ≤ d) :
    businessDaysInclusive s (nextWeekdayAfter d) = businessDaysInclusive s d + 1 := by
  have hw := weekday_lt d
  unfold nextWeekdayAfter
  split
  · rename_i h1
    rw [bd_succ s d h, if_pos h1]
  · split
    · rename_i h1 h2
      rw [show d + 2 = (d + 1) + 1 from rfl, bd_succ s (d + 1) (by omega),
          bd_succ s d h, if_neg h1, if_pos h2]
    · rename_i h1 h2
      have h3 : weekday (d + 3) < 5 := by
        rw [weekday_add] at h1 h2 ⊢
        omega
      rw [show d + 3 = (d + 1 + 1) + 1 from rfl, bd_succ s (d + 1 + 1) (by omega),
          bd_succ s (d + 1) (by omega), bd_succ s d h, if_neg h1, if_neg h2, if_pos h3]

theorem addWeekdays_ge (n : Nat) : ∀ c : Nat, c ≤ addWeekdays c n := by
  induction n with
  | zero => intro c; simp [addWeekdays]
  | succ m ih =>
      intro c
      rw [addWeekdays]
      have := nextWeekdayAfter_gt c
      have := ih (nextWeekdayAfter c)
      omega

theorem addWeekdays_weekday (n : Nat) :
    ∀ c : Nat, weekday c < 5 → weekday (addWeekdays c n) < 5 := by
  induction n with
  | zero => intro c h; simpa [addWeekdays] using h
  | succ m ih =>
      intro c _
      rw [addWeekdays]
      exact ih _ (nextWeekdayAfter_weekday c)

theorem bd_addWeekdays (n : Nat) :
    ∀ s c : Nat, s ≤ c →
      businessDaysInclusive s (addWeekdays c n) = businessDaysInclusive s c + n := by
  induction n with
  | zero => intro s c _; simp [addWeekdays]
  | succ m ih =>
      intro s c h
      rw [addWeekdays, ih s (nextWeekdayAfter c) (by have := nextWeekdayAfter_gt c; omega),
          bd_next s c h]
      omega

theorem yearDoyAux_fst_ge (fuel : Nat) :
    ∀ y d : Nat, y ≤ (yearDoyAux fuel y d).1 := by
  induction fuel with
  | zero => intro y d; simp [yearDoyAux]
  | succ m ih =>
      intro y d
      rw [yearDoyAux]
      split
      · simp
      · have := ih (y + 1) (d - daysInYear y)
        omega

theorem yearDoyAux_big (fuel : Nat) :
    ∀ y d : Nat, daysInYear y ≤ d → 1 ≤ fuel → y + 1 ≤ (yearDoyAux fuel y d).1 := by
  cases fuel with
  | zero => intro y d _ hf; omega
  | succ m =>
      intro y d h _
      rw [yearDoyAux]
      rw [if_neg (by omega)]
      exact yearDoyAux_fst_ge m (y + 1) (d - daysInYear y)

theorem yearOf_eq_2000_iff (d : Nat) : yearOf d = 2000 ↔ d ≤ 365 := by
  have h2000 : daysInYear 2000 = 366 := rfl
  unfold yearOf yearDoy
  constructor
  · intro h
    by_contra hd
    have h2 := yearDoyAux_big d 2000 d (by omega) (by omega)
    omega
  · intro h
    match d with
    | 0 => rfl
    | k + 1 =>
        rw [yearDoyAux]
        rw [if_pos (by omega)]

/-! Generic lemmas about the row-list update helper. -/

theorem listUpdateAt_getElem {α : Type} (l : List α) :
    ∀ (i : Nat) (f : α → α) (j : Nat),
      (listUpdateAt l i f)[j]? = if j = i then (l[j]?).map f else l[j]? := by
  induction l with
  | nil => intro i f j; simp [listUpdateAt]
  | cons x xs ih =>
      intro i f j
      cases i with
      | zero =>
          cases j with
          | zero => simp [listUpdateAt]
          | succ k => simp [listUpdateAt]
      | succ n =>
          cases j with
          | zero => simp [listUpdateAt]
          | succ k =>
              simp only [listUpdateAt, List.getElem?_cons_succ]
              rw [ih n f k]
              by_cases hk : k = n
              · simp [hk]
              · simp [hk, fun h => hk (Nat.succ_injective h)]

theorem listUpdateAt_length {α : Type} (l : List α) :
    ∀ (i : Nat) (f : α → α), (listUpdateAt l i f).length = l.length := by
  induction l with
  | nil => intro i f; rfl
  | cons x xs ih =>
      intro i f
      cases i with
      | zero => rfl
      | succ n => simpa [listUpdateAt] using ih n f

/-! Claim C1: the day-weight rule. -/

/-- C1 counterexample: the claim asserts that for every start date the end
computed from weight `"nd"` is the n-th weekday on or after start; but for
the Saturday start 2024-03-02 (day 8827) and weight `"1d"`,
`update_end_date_from_weight_by_row` sets the end date to the Saturday
itself, which is not a weekday at all. -/
theorem c1_counterexample :
    ((updateEndDateFromWeight 5 stateC1 0).rows.getD 0 row0).endDate = 8827 ∧
      weekday 8827 = 5 ∧ ¬ isNthWeekdayOnOrAfter 8827 1 8827 := by
  decide

theorem dayWeightEnd_spec (start n : Nat) (hs : weekday start < 5) (hn : 1 ≤ n) :
    isNthWeekdayOnOrAfter start n (dayWeightEnd start n) := by
  unfold dayWeightEnd
  refine ⟨addWeekdays_ge (n - 1) start, addWeekdays_weekday (n - 1) start hs, ?_⟩
  rw [bd_addWeekdays (n - 1) start start (le_refl start), bd_self start hs]
  omega

/-- C1 (amended): for every start date that is a weekday (Mon-Fri) and every
n ≥ 1, the `d`-branch of `update_end_date_from_weight_by_row` sets the end
date to the n-th weekday on or after start, counting start itself as the
first of the n weekdays; for a weekend start, start is still counted as the
first, so the result is not the n-th weekday on or after start. -/
theorem c1_theorem (start n : Nat) (hs : weekday start < 5) (hn : 1 ≤ n) :
    isNthWeekdayOnOrAfter start n (dayWeightEnd start n) :=
  dayWeightEnd_spec start n hs hn

/-- C1 witness: weight `"5d"` from Monday 2024-01-01 (day 8766) ends on
Friday 2024-01-05 (day 8770), the 5th weekday counting the Monday itself,
also along the full handler path. -/
theorem c1_witness :
    isNthWeekdayOnOrAfter 8766 5 (dayWeightEnd 8766 5) :=
  c1_theorem 8766 5 (by decide) (by decide)

/-! Claim C2: the day-form round trip. -/

/-- C2 counterexample: the round trip `endToWeight(start, weightToEnd(start,
"Nd")) = "Nd"` fails for the Saturday start 8827 with N = 1 (the derived
weight is `"0d"`), and also for the Tuesday start 2000-01-04 (day 3) with
N = 1, where the end date lands in year 2000 and the derived weight is
empty; the full handler run on the Saturday state leaves weight `"0d"`. -/
theorem c2_counterexample :
    endToWeight 8827 (dayWeightEnd 8827 1) = "0d" ∧
      endToWeight 3 (dayWeightEnd 3 1) = "" ∧
      ((updateEndDateFromWeight 5 stateC2 0).rows.getD 0 row0).weight = "0d" := by
  decide

/-- C2 (amended): for every start date that is a weekday and every N ≥ 1
such that the computed end date does not fall in year 2000, converting the
end date derived from weight `"Nd"` back through `update_weight` yields
exactly `"Nd"`. -/
theorem c2_theorem (start n : Nat) (hs : weekday start < 5) (hn : 1 ≤ n)
    (hy : yearOf (dayWeightEnd start n) ≠ 2000) :
    endToWeight start (dayWeightEnd start n) = toString n ++ "d" := by
  unfold endToWeight
  rw [if_neg hy]
  have hbd : businessDaysInclusive start (dayWeightEnd start n) = n :=
    (dayWeightEnd_spec start n hs hn).2.2
  rw [hbd]

/-- C2 witness: the round trip holds at Monday 2024-01-01 with N = 5. -/
theorem c2_witness :
    endToWeight 8766 (dayWeightEnd 8766 5) = "5d" :=
  c2_theorem 8766 5 (by decide) (by decide) (by decide)

/-! Claim C10: the unscheduled sentinel is the whole of year 2000. -/

/-! Shape preservation and frame lemmas for the roll-up cascade. -/

theorem findCaseIdx_caseAt (c : String) :
    ∀ (l : List Row) (i : Nat), findCaseIdx c l = some i →
      ∃ r, l[i]? = some r ∧ r.caseId = c := by
  intro l
  induction l with
  | nil => intro i h; simp [findCaseIdx] at h
  | cons x xs ih =>
      intro i h
      rw [findCaseIdx] at h
      by_cases hx : x.caseId = c
      · rw [if_pos hx] at h
        injection h with h
        subst h
        exact ⟨x, by simp, hx⟩
      · rw [if_neg hx] at h
        cases hfi : findCaseIdx c xs with
        | none => rw [hfi] at h; exact absurd h (by simp)
        | some k =>
            rw [hfi] at h
            injection h with h
            obtain ⟨r, hr, hrc⟩ := ih k hfi
            refine ⟨r, ?_, hrc⟩
            rw [← h]
            simpa using hr

theorem findCaseIdx_congr (c : String) :
    ∀ (l1 l2 : List Row), l1.map Row.caseId = l2.map Row.caseId →
      findCaseIdx c l1 = findCaseIdx c l2 := by
  intro l1
  induction l1 with
  | nil =>
      intro l2 h
      cases l2 with
      | nil => rfl
      | cons y ys => simp at h
  | cons x xs ih =>
      intro l2 h
      cases l2 with
      | nil => simp at h
      | cons y ys =>
          simp only [List.map_cons, List.cons.injEq] at h
          rw [findCaseIdx, findCaseIdx, h.1, ih ys h.2]

theorem sameShape_refl (st : TaskState) : sameShape st st := ⟨rfl, rfl, rfl⟩

theorem sameShape_trans {st st2 st3 : TaskState}
    (h1 : sameShape st st2) (h2 : sameShape st2 st3) : sameShape st st3 :=
  ⟨h2.1.trans h1.1, h2.2.1.trans h1.2.1, h2.2.2.trans h1.2.2⟩

theorem findRowByCase_shape {st st2 : TaskState} (h : sameShape st st2) (c : String) :
    findRowByCase st2 c = findRowByCase st c := by
  unfold findRowByCase
  by_cases hc : c = ""
  · rw [if_pos hc, if_pos hc]
  · rw [if_neg hc, if_neg hc, findCaseIdx_congr c st2.rows st.rows h.2.2]

theorem getCaseAtRow_shape {st st2 : TaskState} (h : sameShape st st2) (i : Nat) :
    getCaseAtRow st2 i = getCaseAtRow st i := by
  unfold getCaseAtRow
  have hm : st2.rows[i]?.map Row.caseId = st.rows[i]?.map Row.caseId := by
    rw [← List.getElem?_map, ← List.getElem?_map, h.2.2]
  cases h2 : st2.rows[i]? with
  | none =>
      cases h1 : st.rows[i]? with
      | none => rfl
      | some r => rw [h2, h1] at hm; simp at hm
  | some r2 =>
      cases h1 : st.rows[i]? with
      | none => rw [h2, h1] at hm; simp at hm
      | some r1 => rw [h2, h1] at hm; simpa using hm

theorem findRowByCase_caseAt {st : TaskState} {c : String} {i : Nat}
    (h : findRowByCase st c = some i) : getCaseAtRow st i = c := by
  unfold findRowByCase at h
  by_cases hc : c = ""
  · rw [if_pos hc] at h; cases h
  · rw [if_neg hc] at h
    obtain ⟨r, hr, hrc⟩ := findCaseIdx_caseAt c st.rows i h
    unfold getCaseAtRow
    rw [hr]
    exact hrc

theorem updateRowAt_parentMap (st : TaskState) (i : Nat) (f : Row → Row) :
    (updateRowAt st i f).parentMap = st.parentMap := rfl

theorem sameShape_updateRowAt (st : TaskState) (i : Nat) (f : Row → Row)
    (hf : ∀ r, (f r).caseId = r.caseId) : sameShape st (updateRowAt st i f) := by
  refine ⟨rfl, rfl, ?_⟩
  show (listUpdateAt st.rows i f).map Row.caseId = st.rows.map Row.caseId
  induction st.rows generalizing i with
  | nil => rfl
  | cons x xs ih =>
      cases i with
      | zero => simp [listUpdateAt, hf]
      | succ n => simpa [listUpdateAt] using ih n

theorem updateRowAt_frame (st : TaskState) (i : Nat) (f : Row → Row) (j : Nat)
    (h : j ≠ i) : (updateRowAt st i f).rows[j]? = st.rows[j]? := by
  show (listUpdateAt st.rows i f)[j]? = st.rows[j]?
  rw [listUpdateAt_getElem, if_neg h]

theorem updateRowAt_at (st : TaskState) (i : Nat) (f : Row → Row) :
    (updateRowAt st i f).rows[i]? = (st.rows[i]?).map f := by
  show (listUpdateAt st.rows i f)[i]? = (st.rows[i]?).map f
  rw [listUpdateAt_getElem, if_pos rfl]

theorem sameShape_progressWrite (st : TaskState) (i : Nat) :
    sameShape st (progressWrite st i) := by
  refine sameShape_updateRowAt st i _ ?_
  intro rr
  rfl

theorem progressWrite_frame (st : TaskState) (i j : Nat) (h : j ≠ i) :
    (progressWrite st i).rows[j]? = st.rows[j]? :=
  updateRowAt_frame st i _ j h

theorem progressWrite_at (st : TaskState) (i : Nat) :
    (progressWrite st i).rows[i]? =
      (st.rows[i]?).map (fun r => { r with progress := countChecked st i * 100 / 11 }) :=
  updateRowAt_at st i _

theorem gatherChildDates_congr {st st2 : TaskState} (childRows : List Nat)
    (h : ∀ cr ∈ childRows, st2.rows[cr]? = st.rows[cr]?) :
    gatherChildDates st2 childRows = gatherChildDates st childRows := by
  unfold gatherChildDates
  induction childRows with
  | nil => rfl
  | cons x xs ih =>
      simp only [List.filterMap_cons]
      rw [h x (List.mem_cons_self x xs)]
      rw [ih (fun cr hcr => h cr (List.mem_cons_of_mem x hcr))]

theorem rowStepChecked_congr {st st2 : TaskState} {cr : Nat}
    (h : st2.rows[cr]? = st.rows[cr]?) (i : Nat) :
    rowStepChecked st2 cr i = rowStepChecked st cr i := by
  unfold rowStepChecked
  rw [h]

theorem listAll_congr {α : Type} (l : List α) (f g : α → Bool)
    (h : ∀ x ∈ l, f x = g x) : l.all f = l.all g := by
  induction l with
  | nil => rfl
  | cons x xs ih =>
      rw [List.all_cons, List.all_cons, h x (List.mem_cons_self x xs),
          ih (fun y hy => h y (List.mem_cons_of_mem x hy))]

theorem aggSteps_congr {st st2 : TaskState} (childRows : List Nat)
    (h : ∀ cr ∈ childRows, st2.rows[cr]? = st.rows[cr]?) :
    aggSteps st2 childRows = aggSteps st childRows := by
  unfold aggSteps
  refine List.map_congr_left ?_
  intro i _
  exact listAll_congr childRows _ _ (fun cr hcr => rowStepChecked_congr (h cr hcr) i)

theorem aggSteps_getD {st : TaskState} (childRows : List Nat) (i : Nat) (hi : i < 11) :
    (aggSteps st childRows).getD i false =
      childRows.all (fun cr => rowStepChecked st cr i) := by
  unfold aggSteps
  rw [List.getD, List.get?_eq_getElem?, List.getElem?_map, List.getElem?_range hi]
  rfl

theorem listFilterMap_congr {α β : Type} (l : List α) (f g : α → Option β)
    (h : ∀ x ∈ l, f x = g x) : l.filterMap f = l.filterMap g := by
  induction l with
  | nil => rfl
  | cons x xs ih =>
      rw [List.filterMap_cons, List.filterMap_cons, h x (List.mem_cons_self x xs),
          ih (fun y hy => h y (List.mem_cons_of_mem x hy))]

theorem chainCases_mem_succ {pm : List (String × String)} {fuel : Nat} {c x : String}
    (h : x ∈ chainCases pm (fuel + 1) c) :
    x = c ∨ ∃ g, lookupStr pm c = some g ∧ x ∈ chainCases pm fuel g := by
  rw [chainCases] at h
  rcases List.mem_cons.mp h with h1 | h2
  · exact Or.inl h1
  · cases hg : lookupStr pm c with
    | none => rw [hg] at h2; simp at h2
    | some g => rw [hg] at h2; exact Or.inr ⟨g, rfl, h2⟩

theorem sameShape_isSome {st st2 : TaskState} (h : sameShape st st2) {i : Nat} {r : Row}
    (hr : st.rows[i]? = some r) : ∃ r2, st2.rows[i]? = some r2 ∧ r2.caseId = r.caseId := by
  have hm : st2.rows[i]?.map Row.caseId = st.rows[i]?.map Row.caseId := by
    rw [← List.getElem?_map, ← List.getElem?_map, h.2.2]
  rw [hr] at hm
  cases h2 : st2.rows[i]? with
  | none => rw [h2] at hm; simp at hm
  | some r2 =>
      rw [h2] at hm
      simp only [Option.map_some'] at hm
      exact ⟨r2, rfl, by injection hm⟩

/-! Claim C6: dependency selection. -/

/-! Claim C7: malformed weight expressions. -/

/-! Claim C9: enabled state of the milestone checkboxes. -/

/-- C9 counterexample: the claim asserts that the moment the last child is
removed the parent's steps revert to editable; but deleting the only child
`C` never invokes the roll-up, so the parent's checkboxes stay disabled
(while retaining their rolled-up values). -/
theorem c9_counterexample :
    (stateC9.rows.getD 0 row0).stepsEnabled = false ∧
      (lookupStr stateC9.childrenMap "P").getD [] = ["C"] ∧
      (lookupStr (handleDeleteButtonClicked stateC9 1 true).childrenMap "P").getD [] = [] ∧
      ((handleDeleteButtonClicked stateC9 1 true).rows.getD 0 row0).stepsEnabled = false ∧
      ((handleDeleteButtonClicked stateC9 1 true).rows.getD 0 row0).steps =
        List.replicate 11 true := by
  decide

theorem mem_eraseIdx_of_ne {α : Type} (r : α) :
    ∀ (l : List α) (ix : Nat), (∀ rx, l[ix]? = some rx → rx ≠ r) → r ∈ l →
      r ∈ l.eraseIdx ix := by
  intro l
  induction l with
  | nil => intro ix _ hmem; cases hmem
  | cons x xs ih =>
      intro ix hne hmem
      cases ix with
      | zero =>
          rcases List.mem_cons.mp hmem with h1 | h2
          · exact absurd h1.symm (hne x (by simp))
          · simpa [List.eraseIdx] using h2
      | succ n =>
          rcases List.mem_cons.mp hmem with h1 | h2
          · simp [List.eraseIdx, h1]
          · simp only [List.eraseIdx]
            exact List.mem_cons_of_mem x (ih n (fun rx hrx => hne rx (by simpa using hrx)) h2)

/-! Claim C5: deletion. -/

theorem digitChar_facts (k : Nat) (h : k < 10) :
    (Nat.digitChar k).isDigit = true ∧ isPySpace (Nat.digitChar k) = false ∧
      lowerChar (Nat.digitChar k) = Nat.digitChar k ∧
      Nat.digitChar k ≠ '-' ∧ Nat.digitChar k ≠ '+' ∧
      (Nat.digitChar k).toNat - 48 = k := by
  interval_cases k <;> decide

theorem toDigitsCore_append (b : Nat) : ∀ (fuel n : Nat) (acc : List Char),
    Nat.toDigitsCore b fuel n acc = Nat.toDigitsCore b fuel n [] ++ acc := by
  intro fuel
  induction fuel with
  | zero => intro n acc; rfl
  | succ f ih =>
      intro n acc
      simp only [Nat.toDigitsCore]
      by_cases h : n / b = 0
      · rw [if_pos h, if_pos h]
        rfl
      · rw [if_neg h, if_neg h,
          ih (n / b) (Nat.digitChar (n % b) :: acc),
          ih (n / b) [Nat.digitChar (n % b)],
          List.append_assoc]
        rfl

theorem toDigitsCore_mem (fuel : Nat) : ∀ n : Nat, ∀ c ∈ Nat.toDigitsCore 10 fuel n [],
    c.isDigit = true ∧ isPySpace c = false ∧ lowerChar c = c ∧ c ≠ '-' ∧ c ≠ '+' := by
  induction fuel with
  | zero => intro n c hc; cases hc
  | succ f ih =>
      intro n c hc
      have h10 : n % 10 < 10 := Nat.mod_lt _ (by omega)
      have hd := digitChar_facts (n % 10) h10
      simp only [Nat.toDigitsCore] at hc
      by_cases h : n / 10 = 0
      · rw [if_pos h] at hc
        have hce := List.mem_singleton.mp hc
        subst hce
        exact ⟨hd.1, hd.2.1, hd.2.2.1, hd.2.2.2.1, hd.2.2.2.2.1⟩
      · rw [if_neg h, toDigitsCore_append 10 f (n / 10) _] at hc
        rcases List.mem_append.mp hc with h1 | h2
        · exact ih (n / 10) c h1
        · have hce := List.mem_singleton.mp h2
          subst hce
          exact ⟨hd.1, hd.2.1, hd.2.2.1, hd.2.2.2.1, hd.2.2.2.2.1⟩

theorem toDigitsCore_ne_nil (fuel n : Nat) :
    Nat.toDigitsCore 10 (fuel + 1) n [] ≠ [] := by
  simp only [Nat.toDigitsCore]
  by_cases h : n / 10 = 0
  · rw [if_pos h]
    intro hx
    cases hx
  · rw [if_neg h, toDigitsCore_append 10 fuel (n / 10) _]
    intro hx
    rcases List.append_eq_nil.mp hx with ⟨_, h2⟩
    cases h2

theorem toDigitsCore_val (fuel : Nat) : ∀ n, n < fuel →
    (Nat.toDigitsCore 10 fuel n []).foldl (fun a c => a * 10 + (c.toNat - 48)) 0 = n := by
  induction fuel with
  | zero => intro n h; omega
  | succ f ih =>
      intro n h
      have h10 : n % 10 < 10 := Nat.mod_lt _ (by omega)
      have hdm := Nat.div_add_mod n 10
      simp only [Nat.toDigitsCore]
      by_cases hq : n / 10 = 0
      · rw [if_pos hq]
        simp only [List.foldl]
        rw [(digitChar_facts (n % 10) h10).2.2.2.2.2]
        omega
      · rw [if_neg hq, toDigitsCore_append 10 f (n / 10) _, List.foldl_append]
        simp only [List.foldl]
        have hqf : n / 10 < f := by omega
        rw [ih (n / 10) hqf, (digitChar_facts (n % 10) h10).2.2.2.2.2]
        omega

theorem toString_data (n : Nat) : (toString n).data = Nat.toDigits 10 n := rfl

theorem toString_digits (n : Nat) :
    ∀ c ∈ (toString n).data,
      c.isDigit = true ∧ isPySpace c = false ∧ lowerChar c = c ∧ c ≠ '-' ∧ c ≠ '+' := by
  rw [toString_data]
  exact toDigitsCore_mem (n + 1) n

theorem toString_ne_nil (n : Nat) : (toString n).data ≠ [] := by
  rw [toString_data]
  exact toDigitsCore_ne_nil n n

theorem pyIntAux_digits : ∀ (l : List Char), (∀ c ∈ l, c.isDigit = true) →
    ∀ acc, pyIntAux acc l = some (l.foldl (fun a c => a * 10 + (c.toNat - 48)) acc) := by
  intro l
  induction l with
  | nil => intro _ acc; rfl
  | cons c t ih =>
      intro hall acc
      have hc := hall c (List.mem_cons_self c t)
      conv_lhs => rw [pyIntAux.eq_def]
      simp only [if_pos hc, List.foldl]
      exact ih (fun x hx => hall x (List.mem_cons_of_mem c hx)) _

theorem dropWhile_of_none {α : Type} (p : α → Bool) :
    ∀ l : List α, (∀ c ∈ l, p c = false) → l.dropWhile p = l := by
  intro l
  cases l with
  | nil => intro _; rfl
  | cons c t =>
      intro hall
      simp only [List.dropWhile, hall c (List.mem_cons_self c t)]

theorem stripChars_id (l : List Char) (h : ∀ c ∈ l, isPySpace c = false) :
    stripChars l = l := by
  unfold stripChars
  rw [dropWhile_of_none isPySpace l h,
    dropWhile_of_none isPySpace l.reverse (fun c hc => h c (List.mem_reverse.mp hc)),
    List.reverse_reverse]

theorem pyIntChars_toString (n : Nat) : pyIntChars (toString n).data = some (n : Int) := by
  have hall := toString_digits n
  have hs : stripChars (toString n).data = (toString n).data :=
    stripChars_id _ (fun c hc => (hall c hc).2.1)
  obtain ⟨c, rest, hl⟩ := List.exists_cons_of_ne_nil (toString_ne_nil n)
  have hc := hall c (by rw [hl]; exact List.mem_cons_self c rest)
  unfold pyIntChars
  rw [hs, hl]
  have hm : ¬ c = '-' := fun hx => hc.2.2.2.1 hx
  have hp : ¬ c = '+' := fun hx => hc.2.2.2.2 hx
  simp only [if_neg hm, if_neg hp]
  unfold pyIntDigits
  simp only [if_pos hc.1]
  rw [pyIntAux_digits (c :: rest) (fun x hx => (hall x (by rw [hl]; exact hx)).1) 0]
  have hv : (c :: rest).foldl (fun a c => a * 10 + (c.toNat - 48)) 0 = n := by
    rw [← hl]
    rw [toString_data]
    exact toDigitsCore_val (n + 1) n (by omega)
  rw [hv]
  rfl

theorem data_append_d (n : Nat) :
    (toString n ++ "d").data = (toString n).data ++ ['d'] := rfl

theorem map_id_of_mem {α : Type} (f : α → α) :
    ∀ l : List α, (∀ c ∈ l, f c = c) → l.map f = l := by
  intro l
  induction l with
  | nil => intro _; rfl
  | cons c t ih =>
      intro hall
      simp only [List.map, hall c (List.mem_cons_self c t),
        ih (fun x hx => hall x (List.mem_cons_of_mem c hx))]

theorem normalize_canonical (n : Nat) :
    normalizeWeightText (toString n ++ "d") = (toString n).data ++ ['d'] := by
  have hall := toString_digits n
  unfold normalizeWeightText
  rw [data_append_d]
  have hsp : ∀ c ∈ (toString n).data ++ ['d'], isPySpace c = false := by
    intro c hc
    rcases List.mem_append.mp hc with h1 | h2
    · exact (hall c h1).2.1
    · have hce := List.mem_singleton.mp h2
      subst hce
      decide
  rw [stripChars_id _ hsp]
  refine map_id_of_mem lowerChar _ ?_
  intro c hc
  rcases List.mem_append.mp hc with h1 | h2
  · exact (hall c h1).2.2.1
  · have hce := List.mem_singleton.mp h2
    subst hce
    decide

theorem canonical_parse (n : Nat) :
    normalizeWeightText (toString n ++ "d") ≠ [] ∧
      (normalizeWeightText (toString n ++ "d")).getLast? = some 'd' ∧
      pyIntChars (normalizeWeightText (toString n ++ "d")).dropLast = some (n : Int) := by
  rw [normalize_canonical]
  refine ⟨?_, ?_, ?_⟩
  · intro hx
    rcases List.append_eq_nil.mp hx with ⟨_, h2⟩
    cases h2
  · exact List.getLast?_concat _
  · rw [List.dropLast_concat]
    exact pyIntChars_toString n

/-! Monotonicity of the business-day count, and uniqueness of the n-th
weekday on or after a start date.  These drive the settling of the
`setText` re-entrancy: re-deriving the end date from the weight that
`update_weight` just wrote lands on the same end date exactly when both
dates are weekdays with start ≤ end. -/

theorem bd_mono (s d : Nat) (h : s ≤ d) : ∀ k : Nat,
    businessDaysInclusive s d ≤ businessDaysInclusive s (d + k) := by
  intro k
  induction k with
  | zero => exact le_refl _
  | succ j ih =>
      have hstep := bd_succ s (d + j) (by omega)
      rw [show d + (j + 1) = d + j + 1 from rfl, hstep]
      by_cases hw : weekday (d + j + 1) < 5
      · rw [if_pos hw]; omega
      · rw [if_neg hw]; omega

theorem bd_strict (s d d2 : Nat) (h : s ≤ d) (h2 : d < d2) (hw : weekday d2 < 5) :
    businessDaysInclusive s d < businessDaysInclusive s d2 := by
  have hm := bd_mono s d h (d2 - 1 - d)
  rw [show d + (d2 - 1 - d) = d2 - 1 from by omega] at hm
  have hs := bd_succ s (d2 - 1) (by omega)
  rw [show d2 - 1 + 1 = d2 from by omega] at hs
  rw [hs, if_pos hw]
  omega

theorem bd_ge_one (s e : Nat) (hws : weekday s < 5) (hle : s ≤ e) :
    1 ≤ businessDaysInclusive s e := by
  have hm := bd_mono s s (le_refl s) (e - s)
  rw [show s + (e - s) = e from by omega, bd_self s hws] at hm
  exact hm

theorem nth_unique (start n d1 d2 : Nat) (h1 : isNthWeekdayOnOrAfter start n d1)
    (h2 : isNthWeekdayOnOrAfter start n d2) : d1 = d2 := by
  obtain ⟨ha1, hw1, hb1⟩ := h1
  obtain ⟨ha2, hw2, hb2⟩ := h2
  by_contra hne
  rcases Nat.lt_or_ge d1 d2 with hlt | hge
  · have := bd_strict start d1 d2 ha1 hlt hw2
    omega
  · have := bd_strict start d2 d1 ha2 (by omega) hw1
    omega

/-- Re-deriving the end date from the business-day count is the identity on
weekday/weekday ranges: the `d`-branch loop applied to
`business_days_inclusive(start, end)` reaches `end` again. -/
theorem dayWeightEnd_roundtrip (s e : Nat) (hws : weekday s < 5) (hwe : weekday e < 5)
    (hle : s ≤ e) : dayWeightEnd s (businessDaysInclusive s e) = e :=
  nth_unique s (businessDaysInclusive s e) _ e
    (dayWeightEnd_spec s _ hws (bd_ge_one s e hws hle)) ⟨hle, hwe, rfl⟩

/-- The non-sentinel branch of `update_weight` writes the decimal
`f"{bdays}d"` text. -/
theorem endToWeight_form (s e : Nat) (hy : yearOf e ≠ 2000) :
    endToWeight s e = toString (businessDaysInclusive s e) ++ "d" := by
  unfold endToWeight
  rw [if_neg hy]

/-! Membership in the ancestor chains that the cascade can visit. -/

theorem chainCases_self (pm : List (String × String)) (fuel : Nat) (c : String) :
    c ∈ chainCases pm (fuel + 1) c := by
  rw [chainCases]
  exact List.mem_cons_self _ _

theorem chainCases_tail {pm : List (String × String)} {fuel : Nat} {c g x : String}
    (hg : lookupStr pm c = some g) (hx : x ∈ chainCases pm fuel g) :
    x ∈ chainCases pm (fuel + 1) c := by
  rw [chainCases, hg]
  exact List.mem_cons_of_mem _ hx

theorem chainCases_mono {pm : List (String × String)} : ∀ {fuel : Nat} {c x : String},
    x ∈ chainCases pm fuel c → x ∈ chainCases pm (fuel + 1) c := by
  intro fuel
  induction fuel with
  | zero => intro c x hx; cases hx
  | succ f ih =>
      intro c x hx
      rcases chainCases_mem_succ hx with h1 | ⟨g, hg, h2⟩
      · rw [h1]; exact chainCases_self pm (f + 1) c
      · exact chainCases_tail hg (ih h2)

/-! Structural facts about the signal interpreter: it never touches the
maps or any row's Case # cell, and the set of rows it can write is bounded
by the signalled row together with the rows of its ancestor-chain cases. -/

theorem sameShape_runSig : ∀ (fuel : Nat) (st : TaskState) (sig : Sig),
    sameShape st (runSig fuel st sig) := by
  intro fuel
  induction fuel with
  | zero => intro st sig; exact sameShape_refl st
  | succ f ih =>
      intro st sig
      cases sig with
      | uw row =>
          cases h : st.rows[row]? with
          | none => simp only [runSig, h]; exact sameShape_refl st
          | some r =>
              simp only [runSig, h]
              by_cases hw : endToWeight r.startDate r.endDate = r.weight
              · rw [if_pos hw]; exact sameShape_refl st
              · rw [if_neg hw]
                refine sameShape_trans (sameShape_updateRowAt st row _ ?_) (ih _ _)
                intro rr
                rfl
      | ue row =>
          cases h : st.rows[row]? with
          | none => simp only [runSig, h]; exact sameShape_refl st
          | some r =>
              simp only [runSig, h]
              by_cases ht : normalizeWeightText r.weight = []
              · rw [if_pos ht]; exact ih _ _
              · rw [if_neg ht]
                refine sameShape_trans (sameShape_trans ?_ (ih _ (Sig.uw row))) (ih _ (Sig.rowParent row))
                by_cases hd : (normalizeWeightText r.weight).getLast? = some 'd'
                · rw [if_pos hd]
                  cases hp : pyIntChars (normalizeWeightText r.weight).dropLast with
                  | none => exact sameShape_refl st
                  | some days =>
                      by_cases hdl : days ≤ 0
                      · simp only [if_pos hdl]; exact ih _ _
                      · simp only [if_neg hdl]; exact ih _ _
                · rw [if_neg hd]
                  by_cases hw2 : (normalizeWeightText r.weight).getLast? = some 'w'
                  · rw [if_pos hw2]
                    cases hp : pyIntChars (normalizeWeightText r.weight).dropLast with
                    | none => exact sameShape_refl st
                    | some weeks => exact ih _ _
                  · rw [if_neg hw2]; exact sameShape_refl st
      | endSet row v =>
          cases h : st.rows[row]? with
          | none => simp only [runSig, h]; exact sameShape_refl st
          | some r =>
              simp only [runSig, h]
              by_cases hv : v = r.endDate
              · rw [if_pos hv]; exact sameShape_refl st
              · rw [if_neg hv]
                refine sameShape_trans
                  (sameShape_trans (sameShape_updateRowAt st row _ ?_) (ih _ (Sig.uw row)))
                  (ih _ (Sig.rowParent row))
                intro rr
                rfl
      | startSet row v =>
          cases h : st.rows[row]? with
          | none => simp only [runSig, h]; exact sameShape_refl st
          | some r =>
              simp only [runSig, h]
              by_cases hv : v = r.startDate
              · rw [if_pos hv]; exact sameShape_refl st
              · rw [if_neg hv]
                refine sameShape_trans (sameShape_updateRowAt st row _ ?_) (ih _ _)
                intro rr
                rfl
      | rowParent row =>
          cases hpc : lookupStr st.parentMap (getCaseAtRow st row) with
          | none => simp only [runSig, hpc]; exact sameShape_refl st
          | some pc => simp only [runSig, hpc]; exact ih _ _
      | cascade pc =>
          cases hfind : findRowByCase st pc with
          | none => simp only [runSig, hfind]; exact sameShape_refl st
          | some parentRow =>
              simp only [runSig, hfind]
              by_cases hemp : ((lookupStr st.childrenMap (getCaseAtRow st parentRow)).getD []).isEmpty = true
              · rw [if_pos hemp]
                refine sameShape_updateRowAt st parentRow _ ?_
                intro rr
                rfl
              · rw [if_neg hemp]
                refine sameShape_trans
                  (sameShape_trans
                    (sameShape_trans ?_ (sameShape_updateRowAt _ parentRow _ ?_))
                    (sameShape_progressWrite _ parentRow))
                  (ih _ _)
                · by_cases hcon : (gatherChildDates st
                      (((lookupStr st.childrenMap (getCaseAtRow st parentRow)).getD []).filterMap
                        (fun c => findRowByCase st c))).isEmpty = true
                  · rw [if_pos hcon]; exact sameShape_refl st
                  · rw [if_neg hcon]
                    exact sameShape_trans
                      (sameShape_trans (ih _ (Sig.startSet parentRow _)) (ih _ (Sig.endSet parentRow _)))
                      (ih _ (Sig.uw parentRow))
                · intro rr
                  rfl

theorem chainAvoid_shape {st st' : TaskState} (h : sameShape st st') {fuel : Nat}
    {base : String} {j : Nat}
    (hch : ∀ x ∈ chainCases st.parentMap (fuel + 1) base, findRowByCase st x ≠ some j) :
    ∀ x ∈ chainCases st'.parentMap fuel base, findRowByCase st' x ≠ some j := by
  intro x hx
  rw [h.1] at hx
  rw [findRowByCase_shape h x]
  exact hch x (chainCases_mono hx)

theorem chainAvoid_tail {st : TaskState} {fuel : Nat} {c pc : String} {j : Nat}
    (hpc : lookupStr st.parentMap c = some pc)
    (hch : ∀ x ∈ chainCases st.parentMap (fuel + 1) c, findRowByCase st x ≠ some j) :
    ∀ x ∈ chainCases st.parentMap fuel pc, findRowByCase st x ≠ some j :=
  fun x hx => hch x (chainCases_tail hpc hx)

/-- Frame property of the interpreter: a run started on signal `sig` leaves
every row alone that is neither the directly signalled row nor a row found
by one of the ancestor-chain cases of the signal's base case. -/
theorem runSig_frame : ∀ (fuel : Nat) (st : TaskState) (sig : Sig) (j : Nat),
    (∀ r, sigRow sig = some r → j ≠ r) →
    (∀ x ∈ chainCases st.parentMap fuel (sigBase st sig), findRowByCase st x ≠ some j) →
    (runSig fuel st sig).rows[j]? = st.rows[j]? := by
  intro fuel
  induction fuel with
  | zero => intro st sig j _ _; rfl
  | succ f ih =>
      intro st sig j hrow hch
      cases sig with
      | uw row =>
          simp only [sigRow] at hrow
          simp only [sigBase] at hch
          have hj : j ≠ row := hrow row rfl
          cases h : st.rows[row]? with
          | none => simp only [runSig, h]
          | some r =>
              simp only [runSig, h]
              by_cases hw : endToWeight r.startDate r.endDate = r.weight
              · rw [if_pos hw]
              · rw [if_neg hw]
                have hsh : sameShape st (updateRowAt st row
                    (fun rr => { rr with weight := endToWeight r.startDate r.endDate })) := by
                  refine sameShape_updateRowAt st row _ ?_
                  intro rr
                  rfl
                rw [ih _ (Sig.ue row) j (fun rr hrr => by injection hrr with h2; rw [← h2]; exact hj) ?_]
                · exact updateRowAt_frame st row _ j hj
                · simp only [sigBase]
                  rw [getCaseAtRow_shape hsh row]
                  exact chainAvoid_shape hsh hch
      | ue row =>
          simp only [sigRow] at hrow
          simp only [sigBase] at hch
          have hj : j ≠ row := hrow row rfl
          cases h : st.rows[row]? with
          | none => simp only [runSig, h]
          | some r =>
              simp only [runSig, h]
              by_cases ht : normalizeWeightText r.weight = []
              · rw [if_pos ht]
                rw [ih st (Sig.endSet row 0) j (fun rr hrr => by injection hrr with h2; rw [← h2]; exact hj) ?_]
                simp only [sigBase]
                exact fun x hx => hch x (chainCases_mono hx)
              · rw [if_neg ht]
                have hsplit : (if (normalizeWeightText r.weight).getLast? = some 'd' then
                      match pyIntChars (normalizeWeightText r.weight).dropLast with
                      | none => st
                      | some days =>
                          if days ≤ 0 then runSig f st (Sig.endSet row r.startDate)
                          else runSig f st (Sig.endSet row (dayWeightEnd r.startDate days.toNat))
                    else if (normalizeWeightText r.weight).getLast? = some 'w' then
                      match pyIntChars (normalizeWeightText r.weight).dropLast with
                      | none => st
                      | some weeks => runSig f st (Sig.endSet row ((r.startDate : Int) + 7 * weeks).toNat)
                    else st) = st ∨
                    ∃ v, (if (normalizeWeightText r.weight).getLast? = some 'd' then
                      match pyIntChars (normalizeWeightText r.weight).dropLast with
                      | none => st
                      | some days =>
                          if days ≤ 0 then runSig f st (Sig.endSet row r.startDate)
                          else runSig f st (Sig.endSet row (dayWeightEnd r.startDate days.toNat))
                    else if (normalizeWeightText r.weight).getLast? = some 'w' then
                      match pyIntChars (normalizeWeightText r.weight).dropLast with
                      | none => st
                      | some weeks => runSig f st (Sig.endSet row ((r.startDate : Int) + 7 * weeks).toNat)
                    else st) = runSig f st (Sig.endSet row v) := by
                  by_cases hd : (normalizeWeightText r.weight).getLast? = some 'd'
                  · rw [if_pos hd]
                    cases hp : pyIntChars (normalizeWeightText r.weight).dropLast with
                    | none => exact Or.inl rfl
                    | some days =>
                        by_cases hdl : days ≤ 0
                        · simp only [if_pos hdl]
                          exact Or.inr ⟨r.startDate, rfl⟩
                        · simp only [if_neg hdl]
                          exact Or.inr ⟨dayWeightEnd r.startDate days.toNat, rfl⟩
                  · rw [if_neg hd]
                    by_cases hw2 : (normalizeWeightText r.weight).getLast? = some 'w'
                    · rw [if_pos hw2]
                      cases hp : pyIntChars (normalizeWeightText r.weight).dropLast with
                      | none => exact Or.inl rfl
                      | some weeks => exact Or.inr ⟨((r.startDate : Int) + 7 * weeks).toNat, rfl⟩
                    · rw [if_neg hw2]
                      exact Or.inl rfl
                have hchm : ∀ x ∈ chainCases st.parentMap f (getCaseAtRow st row),
                    findRowByCase st x ≠ some j :=
                  fun x hx => hch x (chainCases_mono hx)
                rcases hsplit with h1 | ⟨v, h1⟩
                · rw [h1]
                  have hsh2 : sameShape st (runSig f st (Sig.uw row)) := sameShape_runSig f st _
                  rw [ih _ (Sig.rowParent row) j (fun rr hrr => by cases hrr) ?_]
                  · exact ih st (Sig.uw row) j (fun rr hrr => by injection hrr with h2; rw [← h2]; exact hj) hchm
                  · simp only [sigBase]
                    rw [getCaseAtRow_shape hsh2 row]
                    exact chainAvoid_shape hsh2 hch
                · rw [h1]
                  have hsh1 : sameShape st (runSig f st (Sig.endSet row v)) := sameShape_runSig f st _
                  have hfr1 : (runSig f st (Sig.endSet row v)).rows[j]? = st.rows[j]? :=
                    ih st (Sig.endSet row v) j (fun rr hrr => by injection hrr with h2; rw [← h2]; exact hj) hchm
                  have hsh2 : sameShape st (runSig f (runSig f st (Sig.endSet row v)) (Sig.uw row)) :=
                    sameShape_trans hsh1 (sameShape_runSig f _ _)
                  have hfr2 : (runSig f (runSig f st (Sig.endSet row v)) (Sig.uw row)).rows[j]? = st.rows[j]? := by
                    rw [ih _ (Sig.uw row) j (fun rr hrr => by injection hrr with h2; rw [← h2]; exact hj) ?_]
                    · exact hfr1
                    · simp only [sigBase]
                      rw [getCaseAtRow_shape hsh1 row]
                      exact chainAvoid_shape hsh1 hch
                  rw [ih _ (Sig.rowParent row) j (fun rr hrr => by cases hrr) ?_]
                  · exact hfr2
                  · simp only [sigBase]
                    rw [getCaseAtRow_shape hsh2 row]
                    exact chainAvoid_shape hsh2 hch
      | endSet row v =>
          simp only [sigRow] at hrow
          simp only [sigBase] at hch
          have hj : j ≠ row := hrow row rfl
          cases h : st.rows[row]? with
          | none => simp only [runSig, h]
          | some r =>
              simp only [runSig, h]
              by_cases hv : v = r.endDate
              · rw [if_pos hv]
              · rw [if_neg hv]
                have hsh1 : sameShape st (updateRowAt st row (fun rr => { rr with endDate := v })) := by
                  refine sameShape_updateRowAt st row _ ?_
                  intro rr
                  rfl
                have hfr1 : (updateRowAt st row (fun rr => { rr with endDate := v })).rows[j]? = st.rows[j]? :=
                  updateRowAt_frame st row _ j hj
                have hsh2 : sameShape st (runSig f (updateRowAt st row (fun rr => { rr with endDate := v })) (Sig.uw row)) :=
                  sameShape_trans hsh1 (sameShape_runSig f _ _)
                have hfr2 : (runSig f (updateRowAt st row (fun rr => { rr with endDate := v })) (Sig.uw row)).rows[j]? = st.rows[j]? := by
                  rw [ih _ (Sig.uw row) j (fun rr hrr => by injection hrr with h2; rw [← h2]; exact hj) ?_]
                  · exact hfr1
                  · simp only [sigBase]
                    rw [getCaseAtRow_shape hsh1 row]
                    exact chainAvoid_shape hsh1 hch
                rw [ih _ (Sig.rowParent row) j (fun rr hrr => by cases hrr) ?_]
                · exact hfr2
                · simp only [sigBase]
                  rw [getCaseAtRow_shape hsh2 row]
                  exact chainAvoid_shape hsh2 hch
      | startSet row v =>
          simp only [sigRow] at hrow
          simp only [sigBase] at hch
          have hj : j ≠ row := hrow row rfl
          cases h : st.rows[row]? with
          | none => simp only [runSig, h]
          | some r =>
              simp only [runSig, h]
              by_cases hv : v = r.startDate
              · rw [if_pos hv]
              · rw [if_neg hv]
                have hsh : sameShape st (updateRowAt st row (fun rr => { rr with startDate := v })) := by
                  refine sameShape_updateRowAt st row _ ?_
                  intro rr
                  rfl
                rw [ih _ (Sig.ue row) j (fun rr hrr => by injection hrr with h2; rw [← h2]; exact hj) ?_]
                · exact updateRowAt_frame st row _ j hj
                · simp only [sigBase]
                  rw [getCaseAtRow_shape hsh row]
                  exact chainAvoid_shape hsh hch
      | rowParent row =>
          simp only [sigBase] at hch
          cases hpc : lookupStr st.parentMap (getCaseAtRow st row) with
          | none => simp only [runSig, hpc]
          | some pc =>
              simp only [runSig, hpc]
              exact ih st (Sig.cascade pc) j (fun rr hrr => by cases hrr) (chainAvoid_tail hpc hch)
      | cascade pc =>
          simp only [sigBase] at hch
          cases hfind : findRowByCase st pc with
          | none => simp only [runSig, hfind]
          | some prow =>
              have hjp : j ≠ prow := by
                intro he
                refine hch pc (chainCases_self st.parentMap f pc) ?_
                rw [hfind, he]
              have hcase : getCaseAtRow st prow = pc := findRowByCase_caseAt hfind
              simp only [runSig, hfind]
              rw [hcase]
              by_cases hemp : ((lookupStr st.childrenMap pc).getD []).isEmpty = true
              · rw [if_pos hemp]
                exact updateRowAt_frame st prow _ j hjp
              · rw [if_neg hemp]
                have hchm : ∀ x ∈ chainCases st.parentMap f pc, findRowByCase st x ≠ some j :=
                  fun x hx => hch x (chainCases_mono hx)
                have hst1 : ∃ ST1, (if (gatherChildDates st
                      (((lookupStr st.childrenMap pc).getD []).filterMap
                        (fun c => findRowByCase st c))).isEmpty = true then st
                    else
                      runSig f (runSig f (runSig f st
                        (Sig.startSet prow (listMin ((gatherChildDates st
                          (((lookupStr st.childrenMap pc).getD []).filterMap
                            (fun c => findRowByCase st c))).map Prod.fst))))
                        (Sig.endSet prow (listMax ((gatherChildDates st
                          (((lookupStr st.childrenMap pc).getD []).filterMap
                            (fun c => findRowByCase st c))).map Prod.snd))))
                        (Sig.uw prow)) = ST1 ∧
                    sameShape st ST1 ∧ ST1.rows[j]? = st.rows[j]? := by
                  by_cases hcon : (gatherChildDates st
                      (((lookupStr st.childrenMap pc).getD []).filterMap
                        (fun c => findRowByCase st c))).isEmpty = true
                  · exact ⟨st, by rw [if_pos hcon], sameShape_refl st, rfl⟩
                  · have hshA : sameShape st (runSig f st
                        (Sig.startSet prow (listMin ((gatherChildDates st
                          (((lookupStr st.childrenMap pc).getD []).filterMap
                            (fun c => findRowByCase st c))).map Prod.fst)))) := sameShape_runSig f st _
                    have hfrA : (runSig f st (Sig.startSet prow (listMin ((gatherChildDates st
                        (((lookupStr st.childrenMap pc).getD []).filterMap
                          (fun c => findRowByCase st c))).map Prod.fst)))).rows[j]? = st.rows[j]? := by
                      refine ih st _ j (fun rr hrr => by injection hrr with h2; rw [← h2]; exact hjp) ?_
                      simp only [sigBase]
                      rw [hcase]
                      exact hchm
                    have hshB : sameShape st (runSig f (runSig f st
                        (Sig.startSet prow (listMin ((gatherChildDates st
                          (((lookupStr st.childrenMap pc).getD []).filterMap
                            (fun c => findRowByCase st c))).map Prod.fst))))
                        (Sig.endSet prow (listMax ((gatherChildDates st
                          (((lookupStr st.childrenMap pc).getD []).filterMap
                            (fun c => findRowByCase st c))).map Prod.snd)))) :=
                      sameShape_trans hshA (sameShape_runSig f _ _)
                    have hfrB : (runSig f (runSig f st
                        (Sig.startSet prow (listMin ((gatherChildDates st
                          (((lookupStr st.childrenMap pc).getD []).filterMap
                            (fun c => findRowByCase st c))).map Prod.fst))))
                        (Sig.endSet prow (listMax ((gatherChildDates st
                          (((lookupStr st.childrenMap pc).getD []).filterMap
                            (fun c => findRowByCase st c))).map Prod.snd)))).rows[j]? = st.rows[j]? := by
                      rw [ih _ (Sig.endSet prow _) j (fun rr hrr => by injection hrr with h2; rw [← h2]; exact hjp) ?_]
                      · exact hfrA
                      · simp only [sigBase]
                        rw [getCaseAtRow_shape hshA prow, hcase]
                        exact chainAvoid_shape hshA hch
                    refine ⟨_, by rw [if_neg hcon], sameShape_trans hshB (sameShape_runSig f _ _), ?_⟩
                    rw [ih _ (Sig.uw prow) j (fun rr hrr => by injection hrr with h2; rw [← h2]; exact hjp) ?_]
                    · exact hfrB
                    · simp only [sigBase]
                      rw [getCaseAtRow_shape hshB prow, hcase]
                      exact chainAvoid_shape hshB hch
                obtain ⟨ST1, hSTeq, hsh1, hfr1⟩ := hst1
                rw [hSTeq]
                have hsh2 : sameShape st (progressWrite (updateRowAt ST1 prow
                    (fun r => { r with
                      steps := (List.range 11).map (fun i =>
                        (((lookupStr st.childrenMap pc).getD []).filterMap
                          (fun c => findRowByCase st c)).all (fun cr => rowStepChecked ST1 cr i)),
                      stepsEnabled := false })) prow) := by
                  refine sameShape_trans hsh1 (sameShape_trans (sameShape_updateRowAt _ prow _ ?_)
                    (sameShape_progressWrite _ prow))
                  intro rr
                  rfl
                rw [ih _ (Sig.rowParent prow) j (fun rr hrr => by cases hrr) ?_]
                · rw [progressWrite_frame _ prow j hjp, updateRowAt_frame _ prow _ j hjp]
                  exact hfr1
                · simp only [sigBase]
                  rw [getCaseAtRow_shape hsh2 prow, hcase]
                  exact chainAvoid_shape hsh2 hch

theorem chainAvoidG_shape {st st' : TaskState} (h : sameShape st st') {fuel : Nat} {rp : Nat}
    (hch : ∀ g, lookupStr st.parentMap (getCaseAtRow st rp) = some g →
      ∀ x ∈ chainCases st.parentMap (fuel + 1) g, findRowByCase st x ≠ some rp) :
    ∀ g, lookupStr st'.parentMap (getCaseAtRow st' rp) = some g →
      ∀ x ∈ chainCases st'.parentMap fuel g, findRowByCase st' x ≠ some rp := by
  intro g hg x hx
  rw [h.1, getCaseAtRow_shape h rp] at hg
  rw [h.1] at hx
  rw [findRowByCase_shape h x]
  exact hch g hg x (chainCases_mono hx)

/-- The parent-update tail fired from row `rp` never writes `rp` itself, as
long as `rp` is not a row of one of its own proper ancestor cases. -/
theorem rowParent_frame_self (fuel : Nat) (st : TaskState) (rp : Nat)
    (hch : ∀ g, lookupStr st.parentMap (getCaseAtRow st rp) = some g →
      ∀ x ∈ chainCases st.parentMap fuel g, findRowByCase st x ≠ some rp) :
    (runSig fuel st (Sig.rowParent rp)).rows[rp]? = st.rows[rp]? := by
  cases fuel with
  | zero => rfl
  | succ f =>
      cases hg : lookupStr st.parentMap (getCaseAtRow st rp) with
      | none => simp only [runSig, hg]
      | some g =>
          simp only [runSig, hg]
          refine runSig_frame f st (Sig.cascade g) rp (fun rr hrr => by cases hrr) ?_
          simp only [sigBase]
          exact fun x hx => hch g hg x (chainCases_mono hx)

/-- Row-local effect of the weight/date feedback loop: a run of
`update_weight`, `update_end_date_from_weight_by_row`, or an end-widget
`setDate` on row `rp` rewrites at most the end date and the weight text of
`rp`'s own record (the start date, milestone, enabled and progress fields
survive), provided `rp` is not a row of one of its own proper ancestor
cases. -/
theorem runSig_rowLocal : ∀ (fuel : Nat) (st : TaskState) (sig : Sig) (rp : Nat) (r : Row),
    (sig = Sig.ue rp ∨ sig = Sig.uw rp ∨ ∃ v, sig = Sig.endSet rp v) →
    st.rows[rp]? = some r →
    (∀ g, lookupStr st.parentMap (getCaseAtRow st rp) = some g →
      ∀ x ∈ chainCases st.parentMap fuel g, findRowByCase st x ≠ some rp) →
    ∃ e2 w2, (runSig fuel st sig).rows[rp]? = some { r with endDate := e2, weight := w2 } := by
  intro fuel
  induction fuel with
  | zero =>
      intro st sig rp r _ hr _
      exact ⟨r.endDate, r.weight, hr⟩
  | succ f ih =>
      intro st sig rp r hsig hr hch
      rcases hsig with hsig | hsig | ⟨v, hsig⟩
      · subst hsig
        simp only [runSig, hr]
        by_cases ht : normalizeWeightText r.weight = []
        · rw [if_pos ht]
          exact ih st (Sig.endSet rp 0) rp r (Or.inr (Or.inr ⟨0, rfl⟩)) hr
            (fun g hg x hx => hch g hg x (chainCases_mono hx))
        · rw [if_neg ht]
          have hsplit : (if (normalizeWeightText r.weight).getLast? = some 'd' then
                match pyIntChars (normalizeWeightText r.weight).dropLast with
                | none => st
                | some days =>
                    if days ≤ 0 then runSig f st (Sig.endSet rp r.startDate)
                    else runSig f st (Sig.endSet rp (dayWeightEnd r.startDate days.toNat))
              else if (normalizeWeightText r.weight).getLast? = some 'w' then
                match pyIntChars (normalizeWeightText r.weight).dropLast with
                | none => st
                | some weeks => runSig f st (Sig.endSet rp ((r.startDate : Int) + 7 * weeks).toNat)
              else st) = st ∨
              ∃ v, (if (normalizeWeightText r.weight).getLast? = some 'd' then
                match pyIntChars (normalizeWeightText r.weight).dropLast with
                | none => st
                | some days =>
                    if days ≤ 0 then runSig f st (Sig.endSet rp r.startDate)
                    else runSig f st (Sig.endSet rp (dayWeightEnd r.startDate days.toNat))
              else if (normalizeWeightText r.weight).getLast? = some 'w' then
                match pyIntChars (normalizeWeightText r.weight).dropLast with
                | none => st
                | some weeks => runSig f st (Sig.endSet rp ((r.startDate : Int) + 7 * weeks).toNat)
              else st) = runSig f st (Sig.endSet rp v) := by
            by_cases hd : (normalizeWeightText r.weight).getLast? = some 'd'
            · rw [if_pos hd]
              cases hp : pyIntChars (normalizeWeightText r.weight).dropLast with
              | none => exact Or.inl rfl
              | some days =>
                  by_cases hdl : days ≤ 0
                  · simp only [if_pos hdl]
                    exact Or.inr ⟨r.startDate, rfl⟩
                  · simp only [if_neg hdl]
                    exact Or.inr ⟨dayWeightEnd r.startDate days.toNat, rfl⟩
            · rw [if_neg hd]
              by_cases hw2 : (normalizeWeightText r.weight).getLast? = some 'w'
              · rw [if_pos hw2]
                cases hp : pyIntChars (normalizeWeightText r.weight).dropLast with
                | none => exact Or.inl rfl
                | some weeks => exact Or.inr ⟨((r.startDate : Int) + 7 * weeks).toNat, rfl⟩
              · rw [if_neg hw2]
                exact Or.inl rfl
          rcases hsplit with h1 | ⟨v, h1⟩
          · rw [h1]
            obtain ⟨e2, w2, h2⟩ := ih st (Sig.uw rp) rp r (Or.inr (Or.inl rfl)) hr
              (fun g hg x hx => hch g hg x (chainCases_mono hx))
            have hsh2 : sameShape st (runSig f st (Sig.uw rp)) := sameShape_runSig f st _
            refine ⟨e2, w2, ?_⟩
            rw [rowParent_frame_self f _ rp (chainAvoidG_shape hsh2 hch)]
            exact h2
          · rw [h1]
            obtain ⟨eA, wA, hA⟩ := ih st (Sig.endSet rp v) rp r (Or.inr (Or.inr ⟨v, rfl⟩)) hr
              (fun g hg x hx => hch g hg x (chainCases_mono hx))
            have hsh1 : sameShape st (runSig f st (Sig.endSet rp v)) := sameShape_runSig f st _
            obtain ⟨e2, w2, h2⟩ := ih _ (Sig.uw rp) rp { r with endDate := eA, weight := wA }
              (Or.inr (Or.inl rfl)) hA (chainAvoidG_shape hsh1 hch)
            have hsh2 : sameShape st (runSig f (runSig f st (Sig.endSet rp v)) (Sig.uw rp)) :=
              sameShape_trans hsh1 (sameShape_runSig f _ _)
            refine ⟨e2, w2, ?_⟩
            rw [rowParent_frame_self f _ rp (chainAvoidG_shape hsh2 hch)]
            exact h2
      · subst hsig
        simp only [runSig, hr]
        by_cases hw : endToWeight r.startDate r.endDate = r.weight
        · rw [if_pos hw]
          exact ⟨r.endDate, r.weight, hr⟩
        · rw [if_neg hw]
          have hsh : sameShape st (updateRowAt st rp
              (fun rr => { rr with weight := endToWeight r.startDate r.endDate })) := by
            refine sameShape_updateRowAt st rp _ ?_
            intro rr
            rfl
          have hr1 : (updateRowAt st rp
              (fun rr => { rr with weight := endToWeight r.startDate r.endDate })).rows[rp]? =
              some { r with weight := endToWeight r.startDate r.endDate } := by
            rw [updateRowAt_at, hr]
            rfl
          obtain ⟨e2, w2, h2⟩ := ih _ (Sig.ue rp) rp { r with weight := endToWeight r.startDate r.endDate }
            (Or.inl rfl) hr1 (chainAvoidG_shape hsh hch)
          exact ⟨e2, w2, h2⟩
      · subst hsig
        simp only [runSig, hr]
        by_cases hv : v = r.endDate
        · rw [if_pos hv]
          exact ⟨r.endDate, r.weight, hr⟩
        · rw [if_neg hv]
          have hsh1 : sameShape st (updateRowAt st rp (fun rr => { rr with endDate := v })) := by
            refine sameShape_updateRowAt st rp _ ?_
            intro rr
            rfl
          have hr1 : (updateRowAt st rp (fun rr => { rr with endDate := v })).rows[rp]? =
              some { r with endDate := v } := by
            rw [updateRowAt_at, hr]
            rfl
          obtain ⟨e2, w2, h2⟩ := ih _ (Sig.uw rp) rp { r with endDate := v }
            (Or.inr (Or.inl rfl)) hr1 (chainAvoidG_shape hsh1 hch)
          have hsh2 : sameShape st (runSig f (updateRowAt st rp (fun rr => { rr with endDate := v })) (Sig.uw rp)) :=
            sameShape_trans hsh1 (sameShape_runSig f _ _)
          refine ⟨e2, w2, ?_⟩
          rw [rowParent_frame_self f _ rp (chainAvoidG_shape hsh2 hch)]
          exact h2

/-! Algebra of single-row writes. -/

theorem listUpdateAt_congr_at {α : Type} : ∀ (l : List α) (i : Nat) (f g : α → α),
    (∀ x, l[i]? = some x → f x = g x) →
    listUpdateAt l i f = listUpdateAt l i g := by
  intro l
  induction l with
  | nil => intro i f g _; rfl
  | cons x xs ih =>
      intro i f g h
      cases i with
      | zero =>
          simp only [listUpdateAt]
          rw [h x (by simp)]
      | succ n =>
          simp only [listUpdateAt]
          rw [ih n f g (fun y hy => h y (by simpa using hy))]

theorem updateRowAt_congr_at (st : TaskState) (i : Nat) (f g : Row → Row)
    (h : ∀ x, st.rows[i]? = some x → f x = g x) :
    updateRowAt st i f = updateRowAt st i g := by
  unfold updateRowAt
  rw [listUpdateAt_congr_at st.rows i f g h]

theorem listUpdateAt_self {α : Type} : ∀ (l : List α) (i : Nat) (f : α → α),
    (∀ x, l[i]? = some x → f x = x) → listUpdateAt l i f = l := by
  intro l
  induction l with
  | nil => intro i f _; rfl
  | cons x xs ih =>
      intro i f h
      cases i with
      | zero =>
          simp only [listUpdateAt]
          rw [h x (by simp)]
      | succ n =>
          simp only [listUpdateAt]
          rw [ih n f (fun y hy => h y (by simpa using hy))]

theorem updateRowAt_const_self {st : TaskState} {i : Nat} {r : Row}
    (h : st.rows[i]? = some r) : updateRowAt st i (fun _ => r) = st := by
  unfold updateRowAt
  rw [listUpdateAt_self st.rows i _ (fun x hx => by
    rw [h] at hx
    injection hx with hx2)]

/-- The parent-update tail is a no-op on a top-level row. -/
theorem rowParent_root (fuel : Nat) (st : TaskState) (rp : Nat)
    (hroot : lookupStr st.parentMap (getCaseAtRow st rp) = none) :
    runSig fuel st (Sig.rowParent rp) = st := by
  cases fuel with
  | zero => rfl
  | succ f => simp only [runSig, hroot]

/-! One-step unfolding equations of the interpreter, with the row lookup
hypothesis baked in. -/

theorem runSig_zero (st : TaskState) (sig : Sig) : runSig 0 st sig = st := rfl

theorem runSig_uw_some (f : Nat) (st : TaskState) (row : Nat) (r : Row)
    (hr : st.rows[row]? = some r) :
    runSig (f + 1) st (Sig.uw row) =
      if endToWeight r.startDate r.endDate = r.weight then st
      else runSig f (updateRowAt st row
        (fun rr => { rr with weight := endToWeight r.startDate r.endDate })) (Sig.ue row) := by
  simp only [runSig, hr]

theorem runSig_uw_none (f : Nat) (st : TaskState) (row : Nat)
    (hr : st.rows[row]? = none) :
    runSig (f + 1) st (Sig.uw row) = st := by
  simp only [runSig, hr]

theorem runSig_ue_some (f : Nat) (st : TaskState) (row : Nat) (r : Row)
    (hr : st.rows[row]? = some r) :
    runSig (f + 1) st (Sig.ue row) =
      (if normalizeWeightText r.weight = [] then runSig f st (Sig.endSet row 0)
       else
        runSig f (runSig f
          (if (normalizeWeightText r.weight).getLast? = some 'd' then
            match pyIntChars (normalizeWeightText r.weight).dropLast with
            | none => st
            | some days =>
                if days ≤ 0 then runSig f st (Sig.endSet row r.startDate)
                else runSig f st (Sig.endSet row (dayWeightEnd r.startDate days.toNat))
          else if (normalizeWeightText r.weight).getLast? = some 'w' then
            match pyIntChars (normalizeWeightText r.weight).dropLast with
            | none => st
            | some weeks => runSig f st (Sig.endSet row ((r.startDate : Int) + 7 * weeks).toNat)
          else st) (Sig.uw row)) (Sig.rowParent row)) := by
  simp only [runSig, hr]

theorem runSig_ue_none (f : Nat) (st : TaskState) (row : Nat)
    (hr : st.rows[row]? = none) :
    runSig (f + 1) st (Sig.ue row) = st := by
  simp only [runSig, hr]

theorem runSig_endSet_some (f : Nat) (st : TaskState) (row v : Nat) (r : Row)
    (hr : st.rows[row]? = some r) :
    runSig (f + 1) st (Sig.endSet row v) =
      if v = r.endDate then st
      else
        runSig f (runSig f (updateRowAt st row (fun rr => { rr with endDate := v }))
          (Sig.uw row)) (Sig.rowParent row) := by
  simp only [runSig, hr]

theorem runSig_rowParent_some (f : Nat) (st : TaskState) (row : Nat) (pc : String)
    (hpc : lookupStr st.parentMap (getCaseAtRow st row) = some pc) :
    runSig (f + 1) st (Sig.rowParent row) = runSig f st (Sig.cascade pc) := by
  simp only [runSig, hpc]

theorem runSig_cascade_none (f : Nat) (st : TaskState) (pc : String)
    (hfind : findRowByCase st pc = none) :
    runSig (f + 1) st (Sig.cascade pc) = st := by
  simp only [runSig, hfind]

theorem runSig_cascade_some (f : Nat) (st : TaskState) (pc : String) (prow : Nat)
    (hfind : findRowByCase st pc = some prow) :
    runSig (f + 1) st (Sig.cascade pc) =
      if ((lookupStr st.childrenMap pc).getD []).isEmpty = true then
        updateRowAt st prow (fun r => { r with stepsEnabled := true })
      else
        runSig f (progressWrite (upsAggWrites f st prow) prow) (Sig.rowParent prow) := by
  have hcase : getCaseAtRow st prow = pc := findRowByCase_caseAt hfind
  simp only [runSig, upsAggWrites, hfind, hcase]

/-! The settling of the weight/date feedback loop.  `update_weight` writes
the canonical text `f"{bdays}d"`; when the row's dates are weekdays with
start ≤ end (and the end outside year 2000), re-deriving the end date from
that text lands on the same end date, so the re-entrant run through
`handle_weight_change` terminates after a single bounce. -/

/-- `update_end_date_from_weight_by_row` on a row whose weight text is the
canonical `"{K}d"` for its own dates is the identity up to the final
parent-update tail. -/
theorem ue_canonical (fuel : Nat) (st : TaskState) (rp : Nat) (r : Row) (K : Nat)
    (hr : st.rows[rp]? = some r)
    (hw : r.weight = toString K ++ "d")
    (hK : 1 ≤ K)
    (hws : weekday r.startDate < 5)
    (hy : yearOf r.endDate ≠ 2000)
    (hE : dayWeightEnd r.startDate K = r.endDate) :
    runSig (fuel + 3) st (Sig.ue rp) = runSig (fuel + 2) st (Sig.rowParent rp) := by
  have hcp := canonical_parse K
  have hbd : businessDaysInclusive r.startDate r.endDate = K := by
    rw [← hE]
    exact (dayWeightEnd_spec r.startDate K hws hK).2.2
  rw [show fuel + 3 = (fuel + 2) + 1 from rfl, runSig_ue_some (fuel + 2) st rp r hr]
  rw [hw]
  rw [if_neg hcp.1, if_pos hcp.2.1]
  simp only [hcp.2.2]
  rw [if_neg (show ¬((K : Int) ≤ 0) from by omega)]
  rw [show ((K : Int)).toNat = K from by omega]
  have h1 : runSig (fuel + 2) st (Sig.endSet rp (dayWeightEnd r.startDate K)) = st := by
    rw [show fuel + 2 = (fuel + 1) + 1 from rfl, runSig_endSet_some (fuel + 1) st rp _ r hr]
    rw [if_pos hE]
  have h2 : runSig (fuel + 2) st (Sig.uw rp) = st := by
    rw [show fuel + 2 = (fuel + 1) + 1 from rfl, runSig_uw_some (fuel + 1) st rp r hr]
    rw [if_pos (show endToWeight r.startDate r.endDate = r.weight from by
      rw [endToWeight_form _ _ hy, hbd, hw])]
  rw [h1, h2]

/-- `update_weight` on a weekday/weekday row with start ≤ end and a
non-sentinel end: either the canonical text is already in the cell and
nothing fires, or the text is written once and the re-entrant end
derivation confirms the same end date, leaving only the parent-update
tail of the re-entered handler. -/
theorem uw_settle (fuel : Nat) (st : TaskState) (rp : Nat) (r : Row)
    (hr : st.rows[rp]? = some r)
    (hws : weekday r.startDate < 5) (hwe : weekday r.endDate < 5)
    (hle : r.startDate ≤ r.endDate) (hy : yearOf r.endDate ≠ 2000) :
    runSig (fuel + 5) st (Sig.uw rp) =
      if endToWeight r.startDate r.endDate = r.weight then st
      else runSig (fuel + 3)
        (updateRowAt st rp (fun rr => { rr with weight := endToWeight r.startDate r.endDate }))
        (Sig.rowParent rp) := by
  rw [show fuel + 5 = (fuel + 4) + 1 from rfl, runSig_uw_some (fuel + 4) st rp r hr]
  by_cases hweq : endToWeight r.startDate r.endDate = r.weight
  · rw [if_pos hweq, if_pos hweq]
  · rw [if_neg hweq, if_neg hweq]
    have hr1 : (updateRowAt st rp
        (fun rr => { rr with weight := endToWeight r.startDate r.endDate })).rows[rp]? =
        some { r with weight := endToWeight r.startDate r.endDate } := by
      rw [updateRowAt_at, hr]
      rfl
    exact ue_canonical (fuel + 1) _ rp _ (businessDaysInclusive r.startDate r.endDate)
      hr1 (endToWeight_form _ _ hy) (bd_ge_one _ _ hws hle) hws hy
      (dayWeightEnd_roundtrip _ _ hws hwe hle)

theorem getCaseAtRow_upd (st : TaskState) (rp : Nat) (r : Row) (f : Row → Row)
    (hr : st.rows[rp]? = some r) (hc : (f r).caseId = r.caseId) :
    getCaseAtRow (updateRowAt st rp f) rp = getCaseAtRow st rp := by
  unfold getCaseAtRow
  rw [updateRowAt_at, hr]
  simp only [Option.map_some']
  rw [hc]

theorem rowParent_root_upd (fuel : Nat) (st : TaskState) (rp : Nat) (r : Row) (f : Row → Row)
    (hr : st.rows[rp]? = some r) (hc : (f r).caseId = r.caseId)
    (hroot : lookupStr st.parentMap (getCaseAtRow st rp) = none) :
    runSig fuel (updateRowAt st rp f) (Sig.rowParent rp) = updateRowAt st rp f := by
  refine rowParent_root fuel _ rp ?_
  rw [updateRowAt_parentMap, getCaseAtRow_upd st rp r f hr hc]
  exact hroot

theorem findRowByCase_inj {st : TaskState} {x y : String} {i : Nat}
    (hx : findRowByCase st x = some i) (hy : findRowByCase st y = some i) : x = y := by
  have h1 := findRowByCase_caseAt hx
  have h2 := findRowByCase_caseAt hy
  rw [← h1, ← h2]

theorem chainAvoid_shape_eq {st st' : TaskState} (h : sameShape st st') {fuel : Nat}
    {base : String} {j : Nat}
    (hch : ∀ x ∈ chainCases st.parentMap fuel base, findRowByCase st x ≠ some j) :
    ∀ x ∈ chainCases st'.parentMap fuel base, findRowByCase st' x ≠ some j := by
  intro x hx
  rw [h.1] at hx
  rw [findRowByCase_shape h x]
  exact hch x hx

/-- Avoidance of the whole chain rooted at the parent case itself, from
avoidance of the strict-ancestor chain plus distinctness from the parent
row. -/
theorem chain_from_pc {st : TaskState} {pc : String} {rp j : Nat} {fuel : Nat}
    (hrp : findRowByCase st pc = some rp)
    (hj : j ≠ rp)
    (hchg : ∀ g, lookupStr st.parentMap pc = some g →
      ∀ x ∈ chainCases st.parentMap fuel g, findRowByCase st x ≠ some j) :
    ∀ x ∈ chainCases st.parentMap fuel pc, findRowByCase st x ≠ some j := by
  cases fuel with
  | zero =>
      intro x hx
      cases hx
  | succ f =>
      intro x hx
      rcases chainCases_mem_succ hx with h1 | ⟨g, hg, h2⟩
      · subst h1
        rw [hrp]
        intro he
        injection he with he
        exact hj he.symm
      · exact hchg g hg x (chainCases_mono h2)

/-- The date storm of `update_parent_status` (start `setDate`, end
`setDate`, `update_weight`) leaves every row alone that is neither the
parent row nor a row of one of the parent's chain cases. -/
theorem storm_frame (fuel : Nat) (st : TaskState) (pc : String) (rp j a b : Nat)
    (hcase : getCaseAtRow st rp = pc)
    (hj : j ≠ rp)
    (hpcchain : ∀ x ∈ chainCases st.parentMap fuel pc, findRowByCase st x ≠ some j) :
    (runSig fuel (runSig fuel (runSig fuel st (Sig.startSet rp a)) (Sig.endSet rp b))
      (Sig.uw rp)).rows[j]? = st.rows[j]? := by
  have hshA : sameShape st (runSig fuel st (Sig.startSet rp a)) := sameShape_runSig fuel st _
  have hshB : sameShape st (runSig fuel (runSig fuel st (Sig.startSet rp a)) (Sig.endSet rp b)) :=
    sameShape_trans hshA (sameShape_runSig fuel _ _)
  have hA : (runSig fuel st (Sig.startSet rp a)).rows[j]? = st.rows[j]? := by
    refine runSig_frame fuel st _ j ?_ ?_
    · intro rr hrr
      cases hrr
      exact hj
    · intro x hx
      simp only [sigBase] at hx
      rw [hcase] at hx
      exact hpcchain x hx
  have hB : (runSig fuel (runSig fuel st (Sig.startSet rp a)) (Sig.endSet rp b)).rows[j]? =
      (runSig fuel st (Sig.startSet rp a)).rows[j]? := by
    refine runSig_frame fuel _ _ j ?_ ?_
    · intro rr hrr
      cases hrr
      exact hj
    · intro x hx
      simp only [sigBase] at hx
      rw [getCaseAtRow_shape hshA rp, hcase] at hx
      exact chainAvoid_shape_eq hshA hpcchain x hx
  have hC : (runSig fuel (runSig fuel (runSig fuel st (Sig.startSet rp a)) (Sig.endSet rp b))
      (Sig.uw rp)).rows[j]? =
      (runSig fuel (runSig fuel st (Sig.startSet rp a)) (Sig.endSet rp b)).rows[j]? := by
    refine runSig_frame fuel _ _ j ?_ ?_
    · intro rr hrr
      cases hrr
      exact hj
    · intro x hx
      simp only [sigBase] at hx
      rw [getCaseAtRow_shape hshB rp, hcase] at hx
      exact chainAvoid_shape_eq hshB hpcchain x hx
  rw [hC, hB, hA]

theorem sameShape_upsAggWrites (fuel : Nat) (st : TaskState) (rp : Nat) :
    sameShape st (upsAggWrites fuel st rp) := by
  simp only [upsAggWrites]
  refine sameShape_trans ?_ (sameShape_updateRowAt _ rp _ (fun rr => rfl))
  by_cases hc : (gatherChildDates st
      (((lookupStr st.childrenMap (getCaseAtRow st rp)).getD []).filterMap
        (fun c => findRowByCase st c))).isEmpty = true
  · rw [if_pos hc]
    exact sameShape_refl st
  · rw [if_neg hc]
    exact sameShape_trans
      (sameShape_trans (sameShape_runSig fuel st _) (sameShape_runSig fuel _ _))
      (sameShape_runSig fuel _ _)

/-- Frame of the writes of `update_parent_status` before its final
`update_progress` tail: only the parent row and rows of the parent's strict
ancestor chain can be written. -/
theorem upsAggWrites_frame (fuel : Nat) (st : TaskState) (pc : String) (rp j : Nat)
    (hrp : findRowByCase st pc = some rp)
    (hj : j ≠ rp)
    (hchg : ∀ g, lookupStr st.parentMap pc = some g →
      ∀ x ∈ chainCases st.parentMap fuel g, findRowByCase st x ≠ some j) :
    (upsAggWrites fuel st rp).rows[j]? = st.rows[j]? := by
  have hcase : getCaseAtRow st rp = pc := findRowByCase_caseAt hrp
  have hpcchain : ∀ x ∈ chainCases st.parentMap fuel pc, findRowByCase st x ≠ some j :=
    chain_from_pc hrp hj hchg
  simp only [upsAggWrites]
  rw [updateRowAt_frame _ rp _ j hj]
  by_cases hc : (gatherChildDates st
      (((lookupStr st.childrenMap (getCaseAtRow st rp)).getD []).filterMap
        (fun c => findRowByCase st c))).isEmpty = true
  · rw [if_pos hc]
  · rw [if_neg hc]
    exact storm_frame fuel st pc rp j _ _ hcase hj hpcchain

/-- The parent row after the writes of `update_parent_status` (before its
final `update_progress` tail): milestones aggregated over all children and
checkboxes disabled. -/
theorem upsAggWrites_at (fuel : Nat) (st : TaskState) (pc : String) (rp : Nat) (r : Row)
    (hrp : findRowByCase st pc = some rp)
    (hr : st.rows[rp]? = some r)
    (hkids : ∀ c ∈ (lookupStr st.childrenMap pc).getD [], findRowByCase st c ≠ some rp)
    (hchild : ∀ c ∈ (lookupStr st.childrenMap pc).getD [], ∀ cr, findRowByCase st c = some cr →
      ∀ g, lookupStr st.parentMap pc = some g →
      ∀ x ∈ chainCases st.parentMap fuel g, findRowByCase st x ≠ some cr) :
    ∃ r1 : Row, (upsAggWrites fuel st rp).rows[rp]? = some { r1 with
        steps := aggSteps st (((lookupStr st.childrenMap pc).getD []).filterMap
          (fun c => findRowByCase st c)),
        stepsEnabled := false } := by
  have hcase : getCaseAtRow st rp = pc := findRowByCase_caseAt hrp
  simp only [upsAggWrites]
  rw [hcase]
  rw [updateRowAt_at]
  by_cases hc : (gatherChildDates st
      (((lookupStr st.childrenMap pc).getD []).filterMap
        (fun c => findRowByCase st c))).isEmpty = true
  · rw [if_pos hc, hr]
    exact ⟨r, rfl⟩
  · rw [if_neg hc]
    have hsh1 : sameShape st (runSig fuel (runSig fuel (runSig fuel st
        (Sig.startSet rp (listMin ((gatherChildDates st
          (((lookupStr st.childrenMap pc).getD []).filterMap
            (fun c => findRowByCase st c))).map Prod.fst))))
        (Sig.endSet rp (listMax ((gatherChildDates st
          (((lookupStr st.childrenMap pc).getD []).filterMap
            (fun c => findRowByCase st c))).map Prod.snd))))
        (Sig.uw rp)) :=
      sameShape_trans
        (sameShape_trans (sameShape_runSig fuel st _) (sameShape_runSig fuel _ _))
        (sameShape_runSig fuel _ _)
    obtain ⟨r1, hr1, _⟩ := sameShape_isSome hsh1 hr
    rw [hr1]
    refine ⟨r1, ?_⟩
    simp only [Option.map_some']
    have hsteps : aggSteps (runSig fuel (runSig fuel (runSig fuel st
        (Sig.startSet rp (listMin ((gatherChildDates st
          (((lookupStr st.childrenMap pc).getD []).filterMap
            (fun c => findRowByCase st c))).map Prod.fst))))
        (Sig.endSet rp (listMax ((gatherChildDates st
          (((lookupStr st.childrenMap pc).getD []).filterMap
            (fun c => findRowByCase st c))).map Prod.snd))))
        (Sig.uw rp))
        (((lookupStr st.childrenMap pc).getD []).filterMap (fun c => findRowByCase st c)) =
        aggSteps st (((lookupStr st.childrenMap pc).getD []).filterMap
          (fun c => findRowByCase st c)) := by
      refine aggSteps_congr _ ?_
      intro cr hcr
      obtain ⟨c, hcm, hfc⟩ := List.mem_filterMap.mp hcr
      have hcrne : cr ≠ rp := by
        intro he
        exact hkids c hcm (by rw [hfc, he])
      exact storm_frame fuel st pc rp cr _ _ hcase hcrne
        (chain_from_pc hrp hcrne (fun g hg x hx => hchild c hcm cr hfc g hg x hx))
    show some { r1 with
        steps := aggSteps _ (((lookupStr st.childrenMap pc).getD []).filterMap
          (fun c => findRowByCase st c)),
        stepsEnabled := false } = _
    rw [hsteps]

/-- Decomposition of one roll-up pass over a parent with a nonempty
children list: after the date storm, the milestone aggregation and the
progress write, every child row is untouched and the parent row carries the
aggregated milestones with disabled checkboxes; the pass then continues
with the parent-update tail of `update_progress`. -/
theorem cascade_decomp (fuel : Nat) (st : TaskState) (pc : String) (rp : Nat) (r : Row)
    (hrp : findRowByCase st pc = some rp)
    (hr : st.rows[rp]? = some r)
    (hne : ((lookupStr st.childrenMap pc).getD []).isEmpty = false)
    (hkids : ∀ c ∈ (lookupStr st.childrenMap pc).getD [], findRowByCase st c ≠ some rp)
    (hchild : ∀ c ∈ (lookupStr st.childrenMap pc).getD [], ∀ cr, findRowByCase st c = some cr →
      ∀ g, lookupStr st.parentMap pc = some g →
      ∀ x ∈ chainCases st.parentMap fuel g, findRowByCase st x ≠ some cr) :
    ∃ st3, runSig (fuel + 1) st (Sig.cascade pc) = runSig fuel st3 (Sig.rowParent rp) ∧
      sameShape st st3 ∧
      getCaseAtRow st3 rp = pc ∧
      (∀ c ∈ (lookupStr st.childrenMap pc).getD [], ∀ cr, findRowByCase st c = some cr →
        st3.rows[cr]? = st.rows[cr]?) ∧
      (∃ r2, st3.rows[rp]? = some r2 ∧
        r2.steps = aggSteps st (((lookupStr st.childrenMap pc).getD []).filterMap
          (fun c => findRowByCase st c)) ∧
        r2.stepsEnabled = false) := by
  have hcase : getCaseAtRow st rp = pc := findRowByCase_caseAt hrp
  rw [runSig_cascade_some fuel st pc rp hrp]
  rw [if_neg (by rw [hne]; exact Bool.false_ne_true)]
  have hsh3 : sameShape st (progressWrite (upsAggWrites fuel st rp) rp) :=
    sameShape_trans (sameShape_upsAggWrites fuel st rp) (sameShape_progressWrite _ rp)
  refine ⟨progressWrite (upsAggWrites fuel st rp) rp, rfl, hsh3, ?_, ?_, ?_⟩
  · rw [getCaseAtRow_shape hsh3 rp, hcase]
  · intro c hcm cr hfc
    have hcrne : cr ≠ rp := by
      intro he
      exact hkids c hcm (by rw [hfc, he])
    rw [progressWrite_frame _ rp cr hcrne]
    exact upsAggWrites_frame fuel st pc rp cr hrp hcrne
      (fun g hg x hx => hchild c hcm cr hfc g hg x hx)
  · obtain ⟨r1, hr1⟩ := upsAggWrites_at fuel st pc rp r hrp hr hkids hchild
    rw [progressWrite_at, hr1]
    exact ⟨_, rfl, rfl, rfl⟩

/-- One full roll-up pass over a parent with a nonempty children list whose
ancestor chain avoids both the parent row and all child rows: the children
are untouched and the parent ends with the aggregated milestones and
disabled checkboxes. -/
theorem cascade_full (fuel : Nat) (st : TaskState) (pc : String) (rp : Nat) (r : Row)
    (hrp : findRowByCase st pc = some rp)
    (hr : st.rows[rp]? = some r)
    (hne : ((lookupStr st.childrenMap pc).getD []).isEmpty = false)
    (hkids : ∀ c ∈ (lookupStr st.childrenMap pc).getD [], findRowByCase st c ≠ some rp)
    (hchild : ∀ c ∈ (lookupStr st.childrenMap pc).getD [], ∀ cr, findRowByCase st c = some cr →
      ∀ g, lookupStr st.parentMap pc = some g →
      ∀ x ∈ chainCases st.parentMap fuel g, findRowByCase st x ≠ some cr)
    (htail : ∀ g, lookupStr st.parentMap pc = some g →
      ∀ x ∈ chainCases st.parentMap fuel g, findRowByCase st x ≠ some rp) :
    sameShape st (runSig (fuel + 1) st (Sig.cascade pc)) ∧
      (∀ c ∈ (lookupStr st.childrenMap pc).getD [], ∀ cr, findRowByCase st c = some cr →
        (runSig (fuel + 1) st (Sig.cascade pc)).rows[cr]? = st.rows[cr]?) ∧
      (∃ r2, (runSig (fuel + 1) st (Sig.cascade pc)).rows[rp]? = some r2 ∧
        r2.steps = aggSteps st (((lookupStr st.childrenMap pc).getD []).filterMap
          (fun c => findRowByCase st c)) ∧
        r2.stepsEnabled = false) := by
  obtain ⟨st3, heq, hsh3, hc3, hcf3, r2, hr2, hsteps2, hen2⟩ :=
    cascade_decomp fuel st pc rp r hrp hr hne hkids hchild
  rw [heq]
  have hshF : sameShape st (runSig fuel st3 (Sig.rowParent rp)) :=
    sameShape_trans hsh3 (sameShape_runSig fuel st3 _)
  refine ⟨hshF, ?_, ?_⟩
  · intro c hcm cr hfc
    have hcrne : cr ≠ rp := by
      intro he
      exact hkids c hcm (by rw [hfc, he])
    have hfr : (runSig fuel st3 (Sig.rowParent rp)).rows[cr]? = st3.rows[cr]? := by
      refine runSig_frame fuel st3 _ cr ?_ ?_
      · intro rr hrr
        cases hrr
      · intro x hx
        simp only [sigBase] at hx
        rw [hc3, hsh3.1] at hx
        rw [findRowByCase_shape hsh3 x]
        exact chain_from_pc hrp hcrne (fun g hg y hy => hchild c hcm cr hfc g hg y hy) x hx
    rw [hfr]
    exact hcf3 c hcm cr hfc
  · have hfr : (runSig fuel st3 (Sig.rowParent rp)).rows[rp]? = st3.rows[rp]? := by
      refine rowParent_frame_self fuel st3 rp ?_
      intro g hg x hx
      rw [hc3, hsh3.1] at hg
      rw [hsh3.1] at hx
      rw [findRowByCase_shape hsh3 x]
      exact htail g hg x hx
    rw [hfr, hr2]
    exact ⟨r2, rfl, hsteps2, hen2⟩

theorem chainCases_add {pm : List (String × String)} {f1 : Nat} {c x : String} :
    ∀ k : Nat, x ∈ chainCases pm f1 c → x ∈ chainCases pm (f1 + k) c := by
  intro k
  induction k with
  | zero => exact fun hx => hx
  | succ n ih => exact fun hx => chainCases_mono (ih hx)

/-- The claim-level milestone invariant, from the parts produced by a
roll-up pass: the parent's record holds the aggregation and the child rows
are those of the base state. -/
theorem invariant_from_parts (st stF : TaskState) (rp : Nat) (r2 : Row) (cs : List String)
    (hsh : sameShape st stF)
    (hrow : stF.rows[rp]? = some r2)
    (hsteps : r2.steps = aggSteps st (cs.filterMap (fun c => findRowByCase st c)))
    (hcf : ∀ c ∈ cs, ∀ cr, findRowByCase st c = some cr → stF.rows[cr]? = st.rows[cr]?) :
    ∀ i, i < 11 → rowStepChecked stF rp i =
      (cs.filterMap (fun x => findRowByCase stF x)).all (fun cr => rowStepChecked stF cr i) := by
  intro i hi
  have hfm : cs.filterMap (fun x => findRowByCase stF x) =
      cs.filterMap (fun x => findRowByCase st x) :=
    listFilterMap_congr cs _ _ (fun x _ => findRowByCase_shape hsh x)
  rw [hfm]
  have hL : rowStepChecked stF rp i = stepChecked r2 i := by
    unfold rowStepChecked
    rw [hrow]
  rw [hL]
  unfold stepChecked
  rw [hsteps, aggSteps_getD _ i hi]
  refine listAll_congr _ _ _ ?_
  intro cr hcr
  obtain ⟨c, hcm, hfc⟩ := List.mem_filterMap.mp hcr
  exact (rowStepChecked_congr (hcf c hcm cr hfc) i).symm

/-- The milestone invariant after one roll-up pass, from case-level
acyclicity hypotheses. -/
theorem invariant_after_cascade (fuel : Nat) (st0 : TaskState) (p : String) (rp : Nat)
    (r0 : Row) (cs : List String)
    (hrp : findRowByCase st0 p = some rp)
    (hr : st0.rows[rp]? = some r0)
    (hcs : (lookupStr st0.childrenMap p).getD [] = cs)
    (hne : cs.isEmpty = false)
    (hkids : ∀ x ∈ cs, findRowByCase st0 x ≠ some rp)
    (hchild : ∀ x ∈ cs, ∀ g, lookupStr st0.parentMap p = some g →
        x ∉ chainCases st0.parentMap fuel g)
    (htail : ∀ g, lookupStr st0.parentMap p = some g → p ∉ chainCases st0.parentMap fuel g) :
    ∀ i, i < 11 →
      rowStepChecked (runSig (fuel + 1) st0 (Sig.cascade p)) rp i =
        (cs.filterMap (fun x => findRowByCase (runSig (fuel + 1) st0 (Sig.cascade p)) x)).all
          (fun cr => rowStepChecked (runSig (fuel + 1) st0 (Sig.cascade p)) cr i) := by
  have hchildR : ∀ c2 ∈ (lookupStr st0.childrenMap p).getD [], ∀ cr,
      findRowByCase st0 c2 = some cr → ∀ g, lookupStr st0.parentMap p = some g →
      ∀ x ∈ chainCases st0.parentMap fuel g, findRowByCase st0 x ≠ some cr := by
    intro c2 hc2 cr hfc g hg x hx hEq
    have hxc : x = c2 := findRowByCase_inj hEq hfc
    rw [hcs] at hc2
    exact hchild c2 hc2 g hg (hxc ▸ hx)
  have htailR : ∀ g, lookupStr st0.parentMap p = some g →
      ∀ x ∈ chainCases st0.parentMap fuel g, findRowByCase st0 x ≠ some rp := by
    intro g hg x hx hEq
    have hxp : x = p := findRowByCase_inj hEq hrp
    exact htail g hg (hxp ▸ hx)
  have hkids0 : ∀ c2 ∈ (lookupStr st0.childrenMap p).getD [], findRowByCase st0 c2 ≠ some rp := by
    rw [hcs]
    exact hkids
  have hne0 : ((lookupStr st0.childrenMap p).getD []).isEmpty = false := by
    rw [hcs]
    exact hne
  obtain ⟨hshF, hcfF, r2, hr2, hsteps2, _⟩ :=
    cascade_full fuel st0 p rp r0 hrp hr hne0 hkids0 hchildR htailR
  rw [hcs] at hcfF hsteps2
  exact invariant_from_parts st0 _ rp r2 cs hshF hr2 hsteps2 hcfF

/-- The same, with the hypotheses read off an earlier state of identical
shape (the state before the mutation that triggered the roll-up). -/
theorem invariant_after_cascade_shape (fuel : Nat) (st stX : TaskState) (p : String) (rp : Nat)
    (r : Row) (cs : List String)
    (hsh : sameShape st stX)
    (hrp : findRowByCase st p = some rp)
    (hr : st.rows[rp]? = some r)
    (hcs : (lookupStr st.childrenMap p).getD [] = cs)
    (hne : cs.isEmpty = false)
    (hkids : ∀ x ∈ cs, findRowByCase st x ≠ some rp)
    (hchild : ∀ x ∈ cs, ∀ g, lookupStr st.parentMap p = some g →
        x ∉ chainCases st.parentMap fuel g)
    (htail : ∀ g, lookupStr st.parentMap p = some g → p ∉ chainCases st.parentMap fuel g) :
    ∀ i, i < 11 →
      rowStepChecked (runSig (fuel + 1) stX (Sig.cascade p)) rp i =
        (cs.filterMap (fun x => findRowByCase (runSig (fuel + 1) stX (Sig.cascade p)) x)).all
          (fun cr => rowStepChecked (runSig (fuel + 1) stX (Sig.cascade p)) cr i) := by
  obtain ⟨r0, hr0, _⟩ := sameShape_isSome hsh hr
  refine invariant_after_cascade fuel stX p rp r0 cs ?_ hr0 ?_ hne ?_ ?_ ?_
  · rw [findRowByCase_shape hsh p]
    exact hrp
  · rw [hsh.2.1]
    exact hcs
  · intro x hx
    rw [findRowByCase_shape hsh x]
    exact hkids x hx
  · intro x hx g hg
    rw [hsh.1] at hg ⊢
    exact hchild x hx g hg
  · intro g hg
    rw [hsh.1] at hg ⊢
    exact htail g hg

/-- `update_end_date_from_weight_by_row` on a top-level row with empty
weight text: the end date is reset to the sentinel and the handler
returns. -/
theorem ue_empty_root (fuel : Nat) (st : TaskState) (rp : Nat) (r : Row)
    (hr : st.rows[rp]? = some r)
    (hroot : lookupStr st.parentMap (getCaseAtRow st rp) = none)
    (hw : r.weight = "") :
    runSig (fuel + 3) st (Sig.ue rp) =
      updateRowAt st rp (fun _ => { r with endDate := 0 }) := by
  have hnw : normalizeWeightText r.weight = [] := by
    rw [hw]
    decide
  rw [show fuel + 3 = (fuel + 2) + 1 from rfl, runSig_ue_some (fuel + 2) st rp r hr]
  rw [if_pos hnw]
  by_cases h0 : (0 : Nat) = r.endDate
  · rw [show fuel + 2 = (fuel + 1) + 1 from rfl, runSig_endSet_some (fuel + 1) st rp 0 r hr]
    rw [if_pos h0]
    have hrec : ({ r with endDate := 0 } : Row) = r := by
      rw [h0]
    rw [hrec]
    exact (updateRowAt_const_self hr).symm
  · rw [show fuel + 2 = (fuel + 1) + 1 from rfl, runSig_endSet_some (fuel + 1) st rp 0 r hr]
    rw [if_neg h0]
    have hD : (updateRowAt st rp (fun rr => { rr with endDate := 0 })).rows[rp]? =
        some { r with endDate := 0 } := by
      rw [updateRowAt_at, hr]
      rfl
    have huwD : runSig (fuel + 1)
        (updateRowAt st rp (fun rr => { rr with endDate := 0 })) (Sig.uw rp) =
        updateRowAt st rp (fun rr => { rr with endDate := 0 }) := by
      rw [runSig_uw_some fuel _ rp _ hD]
      simp only []
      rw [if_pos (show endToWeight r.startDate 0 = r.weight from by
        unfold endToWeight
        rw [if_pos (show yearOf 0 = 2000 from rfl), hw])]
    rw [huwD, rowParent_root_upd (fuel + 1) st rp r _ hr rfl hroot]
    refine updateRowAt_congr_at st rp _ _ ?_
    intro x hx
    rw [hr] at hx
    injection hx with hx2
    rw [← hx2]

/-- The `d`/`w` dispatch of `update_end_date_from_weight_by_row` is a no-op
when the normalized weight text matches neither form. -/
theorem malformed_branch (f : Nat) (st : TaskState) (rp : Nat) (r : Row)
    (hnm : weightTextMatches (normalizeWeightText r.weight) = false) :
    (if (normalizeWeightText r.weight).getLast? = some 'd' then
      match pyIntChars (normalizeWeightText r.weight).dropLast with
      | none => st
      | some days =>
          if days ≤ 0 then runSig f st (Sig.endSet rp r.startDate)
          else runSig f st (Sig.endSet rp (dayWeightEnd r.startDate days.toNat))
    else if (normalizeWeightText r.weight).getLast? = some 'w' then
      match pyIntChars (normalizeWeightText r.weight).dropLast with
      | none => st
      | some weeks => runSig f st (Sig.endSet rp ((r.startDate : Int) + 7 * weeks).toNat)
    else st) = st := by
  unfold weightTextMatches at hnm
  by_cases hd : (normalizeWeightText r.weight).getLast? = some 'd'
  · rw [if_pos hd]
    cases hp : pyIntChars (normalizeWeightText r.weight).dropLast with
    | none => rfl
    | some v =>
        rw [hd, hp] at hnm
        simp at hnm
  · rw [if_neg hd]
    by_cases hw2 : (normalizeWeightText r.weight).getLast? = some 'w'
    · rw [if_pos hw2]
      cases hp : pyIntChars (normalizeWeightText r.weight).dropLast with
      | none => rfl
      | some v =>
          rw [hw2, hp] at hnm
          simp [hd] at hnm
    · rw [if_neg hw2]

/-! Claim C3: the milestone roll-up invariant. -/

/-- C3: after any child mutation — a milestone toggle on a child row, a
child end-date edit to a genuinely different date (an equal date fires no
`dateChanged` event), or the `update_parent_status_by_case` call made at
child creation — each of the parent's 11 milestones equals the conjunction
of that milestone over all of the parent's children, not only at creation
time. -/
theorem c3_theorem (fuel : Nat) (st : TaskState) (rc j : Nat) (b : Bool) (newEnd : Nat)
    (c p : String) (rp : Nat) (r rChild : Row) (cs : List String)
    (hc : getCaseAtRow st rc = c)
    (hpm : lookupStr st.parentMap c = some p)
    (hrp : findRowByCase st p = some rp)
    (hr : st.rows[rp]? = some r)
    (hrc : st.rows[rc]? = some rChild)
    (hneq : newEnd ≠ rChild.endDate)
    (hcs : (lookupStr st.childrenMap p).getD [] = cs)
    (hne : cs.isEmpty = false)
    (hkids : ∀ x ∈ cs, findRowByCase st x ≠ some rp)
    (hchild : ∀ x ∈ cs, ∀ g, lookupStr st.parentMap p = some g →
        x ∉ chainCases st.parentMap fuel g)
    (htail : ∀ g, lookupStr st.parentMap p = some g → p ∉ chainCases st.parentMap fuel g) :
    (∀ i, i < 11 →
      rowStepChecked (toggleStep (fuel + 2) st rc j b) rp i =
        (cs.filterMap (fun x => findRowByCase (toggleStep (fuel + 2) st rc j b) x)).all
          (fun cr => rowStepChecked (toggleStep (fuel + 2) st rc j b) cr i)) ∧
    (∀ i, i < 11 →
      rowStepChecked (editEndDate (fuel + 3) st rc newEnd) rp i =
        (cs.filterMap (fun x => findRowByCase (editEndDate (fuel + 3) st rc newEnd) x)).all
          (fun cr => rowStepChecked (editEndDate (fuel + 3) st rc newEnd) cr i)) ∧
    (∀ i, i < 11 →
      rowStepChecked (updateParentStatusByCase (fuel + 1) st p) rp i =
        (cs.filterMap (fun x => findRowByCase (updateParentStatusByCase (fuel + 1) st p) x)).all
          (fun cr => rowStepChecked (updateParentStatusByCase (fuel + 1) st p) cr i)) := by
  refine ⟨?_, ?_, ?_⟩
  · have hsh0 : sameShape st (progressWrite (updateRowAt st rc
        (fun r => { r with steps := r.steps.set j b })) rc) := by
      refine sameShape_trans (sameShape_updateRowAt st rc _ ?_) (sameShape_progressWrite _ rc)
      intro rr
      rfl
    have hpc0 : lookupStr (progressWrite (updateRowAt st rc
        (fun r => { r with steps := r.steps.set j b })) rc).parentMap
        (getCaseAtRow (progressWrite (updateRowAt st rc
          (fun r => { r with steps := r.steps.set j b })) rc) rc) = some p := by
      rw [hsh0.1, getCaseAtRow_shape hsh0 rc, hc]
      exact hpm
    simp only [toggleStep, updateProgress]
    rw [show fuel + 2 = fuel + 1 + 1 from rfl,
      runSig_rowParent_some (fuel + 1) _ rc p hpc0]
    exact invariant_after_cascade_shape fuel st _ p rp r cs hsh0 hrp hr hcs hne hkids hchild htail
  · simp only [editEndDate]
    rw [show fuel + 3 = (fuel + 2) + 1 from rfl,
      runSig_endSet_some (fuel + 2) st rc newEnd rChild hrc]
    rw [if_neg hneq]
    rw [show fuel + 2 = fuel + 1 + 1 from rfl]
    have hsh2 : sameShape st (runSig (fuel + 1 + 1) (updateRowAt st rc
        (fun rr => { rr with endDate := newEnd })) (Sig.uw rc)) := by
      refine sameShape_trans (sameShape_updateRowAt st rc _ ?_) (sameShape_runSig (fuel + 1 + 1) _ _)
      intro rr
      rfl
    have hpc2 : lookupStr (runSig (fuel + 1 + 1) (updateRowAt st rc
        (fun rr => { rr with endDate := newEnd })) (Sig.uw rc)).parentMap
        (getCaseAtRow (runSig (fuel + 1 + 1) (updateRowAt st rc
          (fun rr => { rr with endDate := newEnd })) (Sig.uw rc)) rc) = some p := by
      rw [hsh2.1, getCaseAtRow_shape hsh2 rc, hc]
      exact hpm
    rw [runSig_rowParent_some (fuel + 1) _ rc p hpc2]
    exact invariant_after_cascade_shape fuel st _ p rp r cs hsh2 hrp hr hcs hne hkids hchild htail
  · simp only [updateParentStatusByCase]
    exact invariant_after_cascade_shape fuel st st p rp r cs (sameShape_refl st)
      hrp hr hcs hne hkids hchild htail

/-- C3 witness: in the parent-with-two-children state, after toggling child
`C2`'s first milestone on, after editing `C2`'s end date, and after the
roll-up call made at creation, the parent's first milestone equals the
conjunction over both children. -/
theorem c3_witness :
    (rowStepChecked (toggleStep 3 stateC3 2 0 true) 0 0 =
      (["C1", "C2"].filterMap
        (fun x => findRowByCase (toggleStep 3 stateC3 2 0 true) x)).all
        (fun cr => rowStepChecked (toggleStep 3 stateC3 2 0 true) cr 0)) ∧
    (rowStepChecked (editEndDate 4 stateC3 2 8826) 0 0 =
      (["C1", "C2"].filterMap
        (fun x => findRowByCase (editEndDate 4 stateC3 2 8826) x)).all
        (fun cr => rowStepChecked (editEndDate 4 stateC3 2 8826) cr 0)) ∧
    (rowStepChecked (updateParentStatusByCase 2 stateC3 "P") 0 0 =
      (["C1", "C2"].filterMap
        (fun x => findRowByCase (updateParentStatusByCase 2 stateC3 "P") x)).all
        (fun cr => rowStepChecked (updateParentStatusByCase 2 stateC3 "P") cr 0)) :=
  ⟨(c3_theorem 1 stateC3 2 0 true 8826 "C2" "P" 0 (mkRow "P" "" 8766 8770 "")
      (mkRow "C2" "P" 8766 8770 "") ["C1", "C2"]
      (by decide) (by decide) (by decide) (by decide) (by decide) (by decide) (by decide)
      (by decide) (by decide)
      (fun x hx g hg => by
        rw [show lookupStr stateC3.parentMap "P" = none from by decide] at hg
        cases hg)
      (fun g hg => by
        rw [show lookupStr stateC3.parentMap "P" = none from by decide] at hg
        cases hg)).1
      0 (by decide),
   (c3_theorem 1 stateC3 2 0 true 8826 "C2" "P" 0 (mkRow "P" "" 8766 8770 "")
      (mkRow "C2" "P" 8766 8770 "") ["C1", "C2"]
      (by decide) (by decide) (by decide) (by decide) (by decide) (by decide) (by decide)
      (by decide) (by decide)
      (fun x hx g hg => by
        rw [show lookupStr stateC3.parentMap "P" = none from by decide] at hg
        cases hg)
      (fun g hg => by
        rw [show lookupStr stateC3.parentMap "P" = none from by decide] at hg
        cases hg)).2.1
      0 (by decide),
   (c3_theorem 1 stateC3 2 0 true 8826 "C2" "P" 0 (mkRow "P" "" 8766 8770 "")
      (mkRow "C2" "P" 8766 8770 "") ["C1", "C2"]
      (by decide) (by decide) (by decide) (by decide) (by decide) (by decide) (by decide)
      (by decide) (by decide)
      (fun x hx g hg => by
        rw [show lookupStr stateC3.parentMap "P" = none from by decide] at hg
        cases hg)
      (fun g hg => by
        rw [show lookupStr stateC3.parentMap "P" = none from by decide] at hg
        cases hg)).2.2
      0 (by decide)⟩

/-! Claim C8: the roll-up cascades to the root. -/

/-- C8: a child milestone toggle propagates beyond the immediate parent: in
a three-level chain child -> parent -> grandparent, the resulting state
satisfies the milestone roll-up invariant at the parent row and again at
the grandparent row, so the recomputation reaches every ancestor up to the
root. -/
theorem c8_theorem (fuel : Nat) (st : TaskState) (rc j : Nat) (b : Bool)
    (c p g : String) (rp rg : Nat) (r rG : Row) (cs csg : List String)
    (hc : getCaseAtRow st rc = c)
    (hpm : lookupStr st.parentMap c = some p)
    (hg : lookupStr st.parentMap p = some g)
    (hrp : findRowByCase st p = some rp)
    (hrg : findRowByCase st g = some rg)
    (hr : st.rows[rp]? = some r)
    (hrG : st.rows[rg]? = some rG)
    (hcs : (lookupStr st.childrenMap p).getD [] = cs)
    (hcsg : (lookupStr st.childrenMap g).getD [] = csg)
    (hne : cs.isEmpty = false)
    (hneg : csg.isEmpty = false)
    (hkids : ∀ x ∈ cs, findRowByCase st x ≠ some rp)
    (hkidsg : ∀ x ∈ csg, findRowByCase st x ≠ some rg)
    (hchild : ∀ x ∈ cs, x ∉ chainCases st.parentMap (fuel + 2) g)
    (htail : p ∉ chainCases st.parentMap (fuel + 2) g)
    (hchildg : ∀ x ∈ csg, ∀ g2, lookupStr st.parentMap g = some g2 →
        x ∉ chainCases st.parentMap fuel g2)
    (htailg : ∀ g2, lookupStr st.parentMap g = some g2 →
        g ∉ chainCases st.parentMap fuel g2) :
    (∀ i, i < 11 →
      rowStepChecked (toggleStep (fuel + 4) st rc j b) rp i =
        (cs.filterMap (fun x => findRowByCase (toggleStep (fuel + 4) st rc j b) x)).all
          (fun cr => rowStepChecked (toggleStep (fuel + 4) st rc j b) cr i)) ∧
    (∀ i, i < 11 →
      rowStepChecked (toggleStep (fuel + 4) st rc j b) rg i =
        (csg.filterMap (fun x => findRowByCase (toggleStep (fuel + 4) st rc j b) x)).all
          (fun cr => rowStepChecked (toggleStep (fuel + 4) st rc j b) cr i)) := by
  have hsh0 : sameShape st (progressWrite (updateRowAt st rc
      (fun r => { r with steps := r.steps.set j b })) rc) := by
    refine sameShape_trans (sameShape_updateRowAt st rc _ ?_) (sameShape_progressWrite _ rc)
    intro rr
    rfl
  have hpc0 : lookupStr (progressWrite (updateRowAt st rc
      (fun r => { r with steps := r.steps.set j b })) rc).parentMap
      (getCaseAtRow (progressWrite (updateRowAt st rc
        (fun r => { r with steps := r.steps.set j b })) rc) rc) = some p := by
    rw [hsh0.1, getCaseAtRow_shape hsh0 rc, hc]
    exact hpm
  simp only [toggleStep, updateProgress]
  rw [show fuel + 4 = fuel + 3 + 1 from rfl,
    runSig_rowParent_some (fuel + 3) _ rc p hpc0]
  set st0 := progressWrite (updateRowAt st rc
    (fun r => { r with steps := r.steps.set j b })) rc with hst0def
  have hrp0 : findRowByCase st0 p = some rp := by
    rw [findRowByCase_shape hsh0 p]
    exact hrp
  obtain ⟨r0, hr0, _⟩ := sameShape_isSome hsh0 hr
  have hcs0 : (lookupStr st0.childrenMap p).getD [] = cs := by
    rw [hsh0.2.1]
    exact hcs
  have hne0 : ((lookupStr st0.childrenMap p).getD []).isEmpty = false := by
    rw [hcs0]
    exact hne
  have hkids0 : ∀ c2 ∈ (lookupStr st0.childrenMap p).getD [],
      findRowByCase st0 c2 ≠ some rp := by
    rw [hcs0]
    intro c2 hc2
    rw [findRowByCase_shape hsh0 c2]
    exact hkids c2 hc2
  have hchild0R : ∀ c2 ∈ (lookupStr st0.childrenMap p).getD [], ∀ cr,
      findRowByCase st0 c2 = some cr → ∀ g2, lookupStr st0.parentMap p = some g2 →
      ∀ x ∈ chainCases st0.parentMap (fuel + 2) g2, findRowByCase st0 x ≠ some cr := by
    rw [hcs0]
    intro c2 hc2 cr hfc g2 hg2 x hx hEq
    rw [hsh0.1] at hg2 hx
    rw [findRowByCase_shape hsh0 x] at hEq
    rw [findRowByCase_shape hsh0 c2] at hfc
    rw [hg] at hg2
    injection hg2 with hg2
    subst hg2
    have hxc : x = c2 := findRowByCase_inj hEq hfc
    exact hchild c2 hc2 (hxc ▸ hx)
  rw [show fuel + 3 = (fuel + 2) + 1 from rfl]
  obtain ⟨st3, heq, hsh3, hc3, hcf3, r2, hr2, hsteps2, hen2⟩ :=
    cascade_decomp (fuel + 2) st0 p rp r0 hrp0 hr0 hne0 hkids0 hchild0R
  rw [heq]
  have hsh03 : sameShape st st3 := sameShape_trans hsh0 hsh3
  have hpg3 : lookupStr st3.parentMap (getCaseAtRow st3 rp) = some g := by
    rw [hc3, hsh03.1]
    exact hg
  rw [show fuel + 2 = fuel + 1 + 1 from rfl, runSig_rowParent_some (fuel + 1) st3 rp g hpg3]
  rw [hcs0] at hcf3 hsteps2
  constructor
  · have hshF : sameShape st3 (runSig (fuel + 1) st3 (Sig.cascade g)) :=
      sameShape_runSig (fuel + 1) st3 _
    have hfrp : (runSig (fuel + 1) st3 (Sig.cascade g)).rows[rp]? = st3.rows[rp]? := by
      refine runSig_frame (fuel + 1) st3 _ rp ?_ ?_
      · intro rr hrr
        cases hrr
      · intro x hx
        simp only [sigBase] at hx
        rw [hsh03.1] at hx
        rw [findRowByCase_shape hsh03 x]
        intro hEq
        have hxp : x = p := findRowByCase_inj hEq hrp
        exact htail (hxp ▸ chainCases_mono hx)
    have hfcs : ∀ c2 ∈ cs, ∀ cr, findRowByCase st c2 = some cr →
        (runSig (fuel + 1) st3 (Sig.cascade g)).rows[cr]? = st3.rows[cr]? := by
      intro c2 hc2 cr hfc
      refine runSig_frame (fuel + 1) st3 _ cr ?_ ?_
      · intro rr hrr
        cases hrr
      · intro x hx
        simp only [sigBase] at hx
        rw [hsh03.1] at hx
        rw [findRowByCase_shape hsh03 x]
        intro hEq
        have hxc : x = c2 := findRowByCase_inj hEq hfc
        exact hchild c2 hc2 (hxc ▸ chainCases_mono hx)
    refine invariant_from_parts st0 _ rp r2 cs (sameShape_trans hsh3 hshF) ?_ hsteps2 ?_
    · rw [hfrp]
      exact hr2
    · intro c2 hc2 cr hfc0
      have hfc : findRowByCase st c2 = some cr := by
        rw [← findRowByCase_shape hsh0 c2]
        exact hfc0
      rw [hfcs c2 hc2 cr hfc]
      exact hcf3 c2 hc2 cr hfc0
  · exact invariant_after_cascade_shape fuel st st3 g rg rG csg hsh03 hrg hrG hcsg hneg hkidsg
      hchildg htailg

/-- C8 witness: in the three-level chain, after toggling the grandchild's
first milestone, the roll-up invariant holds at both the parent row and the
grandparent (root) row. -/
theorem c8_witness :
    (rowStepChecked (toggleStep 4 stateC8 2 0 true) 1 0 =
      (["G"].filterMap (fun x => findRowByCase (toggleStep 4 stateC8 2 0 true) x)).all
        (fun cr => rowStepChecked (toggleStep 4 stateC8 2 0 true) cr 0)) ∧
    (rowStepChecked (toggleStep 4 stateC8 2 0 true) 0 0 =
      (["C"].filterMap (fun x => findRowByCase (toggleStep 4 stateC8 2 0 true) x)).all
        (fun cr => rowStepChecked (toggleStep 4 stateC8 2 0 true) cr 0)) :=
  ⟨(c8_theorem 0 stateC8 2 0 true "G" "C" "P" 1 0
      (mkRow "C" "P" 8766 8770 "") (mkRow "P" "" 8766 8770 "") ["G"] ["C"]
      (by decide) (by decide) (by decide) (by decide) (by decide) (by decide)
      (by decide) (by decide) (by decide) (by decide) (by decide) (by decide)
      (by decide) (by decide) (by decide)
      (fun x hx g2 hg2 => by
        rw [show lookupStr stateC8.parentMap "P" = none from by decide] at hg2
        cases hg2)
      (fun g2 hg2 => by
        rw [show lookupStr stateC8.parentMap "P" = none from by decide] at hg2
        cases hg2)).1 0 (by decide),
   (c8_theorem 0 stateC8 2 0 true "G" "C" "P" 1 0
      (mkRow "C" "P" 8766 8770 "") (mkRow "P" "" 8766 8770 "") ["G"] ["C"]
      (by decide) (by decide) (by decide) (by decide) (by decide) (by decide)
      (by decide) (by decide) (by decide) (by decide) (by decide) (by decide)
      (by decide) (by decide) (by decide)
      (fun x hx g2 hg2 => by
        rw [show lookupStr stateC8.parentMap "P" = none from by decide] at hg2
        cases hg2)
      (fun g2 hg2 => by
        rw [show lookupStr stateC8.parentMap "P" = none from by decide] at hg2
        cases hg2)).2 0 (by decide)⟩

/-! Claim C9: enabled state of the milestone checkboxes (continued). -/

theorem upsAggWrites_enabled (fuel : Nat) (st : TaskState) (rp : Nat) (r : Row)
    (hr : st.rows[rp]? = some r) :
    ∃ r1, (upsAggWrites fuel st rp).rows[rp]? = some r1 ∧ r1.stepsEnabled = false := by
  simp only [upsAggWrites]
  rw [updateRowAt_at]
  by_cases hc : (gatherChildDates st
      (((lookupStr st.childrenMap (getCaseAtRow st rp)).getD []).filterMap
        (fun c => findRowByCase st c))).isEmpty = true
  · rw [if_pos hc, hr]
    exact ⟨_, rfl, rfl⟩
  · rw [if_neg hc]
    have hsh1 : sameShape st (runSig fuel (runSig fuel (runSig fuel st
        (Sig.startSet rp (listMin ((gatherChildDates st
          (((lookupStr st.childrenMap (getCaseAtRow st rp)).getD []).filterMap
            (fun c => findRowByCase st c))).map Prod.fst))))
        (Sig.endSet rp (listMax ((gatherChildDates st
          (((lookupStr st.childrenMap (getCaseAtRow st rp)).getD []).filterMap
            (fun c => findRowByCase st c))).map Prod.snd))))
        (Sig.uw rp)) :=
      sameShape_trans
        (sameShape_trans (sameShape_runSig fuel st _) (sameShape_runSig fuel _ _))
        (sameShape_runSig fuel _ _)
    obtain ⟨r1, hr1, _⟩ := sameShape_isSome hsh1 hr
    rw [hr1]
    exact ⟨_, rfl, rfl⟩

/-- C9 (amended): (a) every roll-up pass over a parent with at least one
child leaves the parent's 11 checkboxes disabled; (b) deleting a childless
child row does not touch any other task's steps or enabled flag — in
particular the parent's checkboxes stay disabled with their last rolled-up
values, because child deletion never triggers a roll-up; (c) only a later
roll-up pass that finds the parent childless re-enables the checkboxes, and
it leaves the step values unchanged. -/
theorem c9_theorem :
    (∀ fuel st pc rp (r : Row) cs, findRowByCase st pc = some rp →
        st.rows[rp]? = some r →
        (lookupStr st.childrenMap pc).getD [] = cs → cs.isEmpty = false →
        (∀ cr ∈ cs.filterMap (fun x => findRowByCase st x), cr ≠ rp) →
        (∀ g, lookupStr st.parentMap pc = some g → pc ∉ chainCases st.parentMap fuel g) →
        ∃ r2, (updateParentStatusByCase (fuel + 1) st pc).rows[rp]? = some r2 ∧
          r2.stepsEnabled = false) ∧
    (∀ st rc confirmed c p (r : Row), getCaseAtRow st rc = c → c ≠ "" →
        (lookupStr st.childrenMap c).getD [] = [] →
        r ∈ st.rows → r.caseId = p → p ≠ c →
        ∃ r2, r2 ∈ (handleDeleteButtonClicked st rc confirmed).rows ∧
          r2.caseId = p ∧ r2.steps = r.steps ∧ r2.stepsEnabled = r.stepsEnabled) ∧
    (∀ fuel st pc rp (r : Row), findRowByCase st pc = some rp →
        st.rows[rp]? = some r →
        (lookupStr st.childrenMap pc).getD [] = [] →
        ∃ r2, (updateParentStatusByCase (fuel + 1) st pc).rows[rp]? = some r2 ∧
          r2.stepsEnabled = true ∧ r2.steps = r.steps) := by
  refine ⟨?_, ?_, ?_⟩
  · intro fuel st pc rp r cs hrp hr hcs hne hkidsF htail
    have hcase : getCaseAtRow st rp = pc := findRowByCase_caseAt hrp
    simp only [updateParentStatusByCase]
    rw [runSig_cascade_some fuel st pc rp hrp]
    rw [if_neg (by rw [hcs, hne]; exact Bool.false_ne_true)]
    obtain ⟨r1, hr1, hen1⟩ := upsAggWrites_enabled fuel st rp r hr
    have hsh3 : sameShape st (progressWrite (upsAggWrites fuel st rp) rp) :=
      sameShape_trans (sameShape_upsAggWrites fuel st rp) (sameShape_progressWrite _ rp)
    have hfr : (runSig fuel (progressWrite (upsAggWrites fuel st rp) rp)
        (Sig.rowParent rp)).rows[rp]? =
        (progressWrite (upsAggWrites fuel st rp) rp).rows[rp]? := by
      refine rowParent_frame_self fuel _ rp ?_
      intro g hg x hx
      rw [getCaseAtRow_shape hsh3 rp, hcase, hsh3.1] at hg
      rw [hsh3.1] at hx
      rw [findRowByCase_shape hsh3 x]
      intro hEq
      have hxp : x = pc := findRowByCase_inj hEq hrp
      exact htail g hg (hxp ▸ hx)
    rw [hfr, progressWrite_at, hr1]
    exact ⟨_, rfl, hen1⟩
  · intro st rc confirmed c p r hc hcne hcm hmem hcase hpc
    simp only [handleDeleteButtonClicked, hc, if_neg hcne, hcm]
    rw [if_pos (show ([] : List String).isEmpty = true from rfl)]
    have hmem1 : r ∈ (deleteRowByCase st c).rows := by
      unfold deleteRowByCase
      cases hfind : findRowByCase st c with
      | none => exact hmem
      | some i =>
          refine mem_eraseIdx_of_ne r st.rows i ?_ hmem
          intro rx hrx hre
          obtain ⟨rr, hrr, hrrc⟩ := findCaseIdx_caseAt c st.rows i (by
            unfold findRowByCase at hfind
            rw [if_neg hcne] at hfind
            exact hfind)
          rw [hrx] at hrr
          injection hrr with hrr
          rw [← hrr] at hrrc
          rw [hre] at hrrc
          rw [hcase] at hrrc
          exact hpc hrrc
    refine ⟨_, List.mem_map_of_mem _ hmem1, ?_, rfl, rfl⟩
    exact hcase
  · intro fuel st pc rp r hrp hr hcm
    simp only [updateParentStatusByCase]
    rw [runSig_cascade_some fuel st pc rp hrp]
    rw [if_pos (by rw [hcm]; rfl)]
    rw [updateRowAt_at, hr]
    exact ⟨_, rfl, rfl, rfl⟩

/-- C9 witness: (a) rolling up parent `P` (one child) leaves its checkboxes
disabled; (b) deleting the childless child `C` keeps `P`'s checkboxes
disabled with their retained values; (c) a roll-up pass over the childless
task `T7` re-enables its checkboxes without changing the step values. -/
theorem c9_witness :
    (∃ r2, (updateParentStatusByCase 1 stateC9 "P").rows[0]? = some r2 ∧
        r2.stepsEnabled = false) ∧
    (∃ r2, r2 ∈ (handleDeleteButtonClicked stateC9 1 true).rows ∧
        r2.caseId = "P" ∧
        r2.steps = ({ mkRow "P" "" 8766 8770 "" with
          steps := List.replicate 11 true, stepsEnabled := false } : Row).steps ∧
        r2.stepsEnabled = ({ mkRow "P" "" 8766 8770 "" with
          steps := List.replicate 11 true, stepsEnabled := false } : Row).stepsEnabled) ∧
    (∃ r2, (updateParentStatusByCase 1 stateC7b "T7").rows[0]? = some r2 ∧
        r2.stepsEnabled = true ∧ r2.steps = (mkRow "T7" "" 8766 8770 "soon").steps) :=
  ⟨c9_theorem.1 0 stateC9 "P" 0
      { mkRow "P" "" 8766 8770 "" with steps := List.replicate 11 true, stepsEnabled := false }
      ["C"] (by decide) (by decide) (by decide) (by decide) (by decide)
      (fun g hg => by
        rw [show lookupStr stateC9.parentMap "P" = none from by decide] at hg
        cases hg),
   c9_theorem.2.1 stateC9 1 true "C" "P"
      { mkRow "P" "" 8766 8770 "" with steps := List.replicate 11 true, stepsEnabled := false }
      (by decide) (by decide) (by decide) (by decide) (by decide) (by decide),
   c9_theorem.2.2 0 stateC7b "T7" 0 (mkRow "T7" "" 8766 8770 "soon")
      (by decide) (by decide) (by decide)⟩

/-! Claim C4: the parent date roll-up. -/

/-- C7 counterexample: the claim asserts that editing a non-matching weight
string is a no-op on dates; but the empty text clears the end date to the
sentinel, and for malformed text the trailing `update_weight` rewrite of
the weight cell re-enters the end derivation through `itemChanged`, which
does change the stored end date whenever the pair of dates does not
round-trip: an end before the start snaps to the start (8766 to 8770), a
weekend end snaps back to the preceding Friday (8771 to 8770), and an end
inside year 2000 — here 2000-06-15 — collapses to the sentinel 2000-01-01
(166 to 0). -/
theorem c7_counterexample :
    weightTextMatches (normalizeWeightText "soon") = false ∧
    normalizeWeightText "soon" ≠ [] ∧
    (stateC7c.rows.getD 0 row0).endDate = 8766 ∧
    ((updateEndDateFromWeight 8 stateC7c 0).rows.getD 0 row0).endDate = 8770 ∧
    (stateC7d.rows.getD 0 row0).endDate = 8771 ∧
    ((updateEndDateFromWeight 8 stateC7d 0).rows.getD 0 row0).endDate = 8770 ∧
    (stateC7e.rows.getD 0 row0).endDate = 166 ∧
    ((updateEndDateFromWeight 8 stateC7e 0).rows.getD 0 row0).endDate = 0 ∧
    (stateC7.rows.getD 0 row0).endDate = 8770 ∧
    ((updateEndDateFromWeight 8 stateC7 0).rows.getD 0 row0).endDate = 0 := by
  decide

/-- C7 (amended): for weight text that is nonempty after strip/lowercase
and matches neither `<int>d` nor `<int>w`, the edit leaves the task's own
start and end dates unchanged provided the existing pair of dates
round-trips (both weekdays, start ≤ end, end outside year 2000); the
trailing `update_weight` still rewrites the weight cell to the canonical
text and no error is surfaced. The empty text is an exception that clears
the end date to the sentinel, and a non-round-tripping pair of dates is
moved by the re-entrant rewrite (see the counterexample). -/
theorem c7_theorem (fuel : Nat) (st : TaskState) (row : Nat) (r : Row)
    (h : st.rows[row]? = some r)
    (hchain : ∀ pc, lookupStr st.parentMap (getCaseAtRow st row) = some pc →
        ∀ x ∈ chainCases st.parentMap (fuel + 6) pc, findRowByCase st x ≠ some row) :
    (normalizeWeightText r.weight ≠ [] →
      weightTextMatches (normalizeWeightText r.weight) = false →
      weekday r.startDate < 5 → weekday r.endDate < 5 → r.startDate ≤ r.endDate →
      yearOf r.endDate ≠ 2000 →
      (updateEndDateFromWeight (fuel + 6) st row).rows[row]? =
        some { r with weight := endToWeight r.startDate r.endDate }) ∧
    (r.weight = "" →
      lookupStr st.parentMap (getCaseAtRow st row) = none →
      updateEndDateFromWeight (fuel + 6) st row =
        updateRowAt st row (fun _ => { r with endDate := 0 })) := by
  constructor
  · intro hne hnm hws hwe hle hy
    have hchainG : ∀ (stX : TaskState), sameShape st stX → ∀ f2 : Nat, f2 ≤ fuel + 6 →
        ∀ g, lookupStr stX.parentMap (getCaseAtRow stX row) = some g →
        ∀ x ∈ chainCases stX.parentMap f2 g, findRowByCase stX x ≠ some row := by
      intro stX hsh f2 hf2 g hg x hx
      rw [hsh.1, getCaseAtRow_shape hsh row] at hg
      rw [hsh.1] at hx
      rw [findRowByCase_shape hsh x]
      refine hchain g hg x ?_
      have hx2 := chainCases_add (fuel + 6 - f2) hx
      rw [show f2 + (fuel + 6 - f2) = fuel + 6 from by omega] at hx2
      exact hx2
    simp only [updateEndDateFromWeight]
    rw [show fuel + 6 = (fuel + 5) + 1 from rfl, runSig_ue_some (fuel + 5) st row r h]
    rw [if_neg hne, malformed_branch (fuel + 5) st row r hnm]
    rw [show fuel + 5 = fuel + 5 from rfl, uw_settle fuel st row r h hws hwe hle hy]
    by_cases hwq : endToWeight r.startDate r.endDate = r.weight
    · rw [if_pos hwq]
      have hfr : (runSig (fuel + 5) st (Sig.rowParent row)).rows[row]? = st.rows[row]? :=
        rowParent_frame_self (fuel + 5) st row
          (hchainG st (sameShape_refl st) (fuel + 5) (by omega))
      rw [hfr, h, hwq]
    · rw [if_neg hwq]
      have hshW : sameShape st (updateRowAt st row
          (fun rr => { rr with weight := endToWeight r.startDate r.endDate })) := by
        refine sameShape_updateRowAt st row _ ?_
        intro rr
        rfl
      have hW : (updateRowAt st row
          (fun rr => { rr with weight := endToWeight r.startDate r.endDate })).rows[row]? =
          some { r with weight := endToWeight r.startDate r.endDate } := by
        rw [updateRowAt_at, h]
        rfl
      have hfr1 : (runSig (fuel + 3) (updateRowAt st row
          (fun rr => { rr with weight := endToWeight r.startDate r.endDate }))
          (Sig.rowParent row)).rows[row]? =
          some { r with weight := endToWeight r.startDate r.endDate } := by
        rw [rowParent_frame_self (fuel + 3) _ row (hchainG _ hshW (fuel + 3) (by omega))]
        exact hW
      have hsh2 : sameShape st (runSig (fuel + 3) (updateRowAt st row
          (fun rr => { rr with weight := endToWeight r.startDate r.endDate }))
          (Sig.rowParent row)) :=
        sameShape_trans hshW (sameShape_runSig (fuel + 3) _ _)
      rw [rowParent_frame_self (fuel + 5) _ row (hchainG _ hsh2 (fuel + 5) (by omega))]
      exact hfr1
  · intro hw hroot
    simp only [updateEndDateFromWeight]
    exact ue_empty_root (fuel + 3) st row r h hroot hw

/-- C7 witness: the malformed weight `"soon"` on a weekday-to-weekday task
leaves both dates untouched while the weight cell is rewritten to the
canonical `"5d"`; the empty weight text clears the end date to the
sentinel. -/
theorem c7_witness :
    (updateEndDateFromWeight 6 stateC7b 0).rows[0]? =
      some { mkRow "T7" "" 8766 8770 "soon" with weight := endToWeight 8766 8770 } ∧
    updateEndDateFromWeight 6 stateC7 0 =
      updateRowAt stateC7 0 (fun _ => { mkRow "T7" "" 8766 8770 "" with endDate := 0 }) :=
  ⟨(c7_theorem 0 stateC7b 0 (mkRow "T7" "" 8766 8770 "soon") (by decide)
      (fun pc hpc => by
        rw [show lookupStr stateC7b.parentMap (getCaseAtRow stateC7b 0) = none
          from by decide] at hpc
        cases hpc)).1
      (by decide) (by decide) (by decide) (by decide) (by decide) (by decide),
   (c7_theorem 0 stateC7 0 (mkRow "T7" "" 8766 8770 "") (by decide)
      (fun pc hpc => by
        rw [show lookupStr stateC7.parentMap (getCaseAtRow stateC7 0) = none
          from by decide] at hpc
        cases hpc)).2
      (by decide) (by decide)⟩

/-! Claim C10: the unscheduled sentinel is the whole of year 2000. -/

/-- C10: the unscheduled test everywhere in the program is `year == 2000`:
for any row whose end date has year 2000 — equivalently, by
`yearOf_eq_2000_iff`, any end date within day offsets 0..365, not only the
reserved 2000-01-01 — `update_weight` writes the empty weight (whose
`itemChanged` re-entry then either leaves the end date unchanged or resets
it to the sentinel, in either case still inside year 2000), the
`update_parent_status` date gathering skips the row, and the end date
serializes as the empty string. -/
theorem c10_theorem (fuel : Nat) (st : TaskState) (row : Nat) (r : Row)
    (h : st.rows[row]? = some r) (h2 : yearOf r.endDate = 2000)
    (hchain : ∀ pc, lookupStr st.parentMap (getCaseAtRow st row) = some pc →
        ∀ x ∈ chainCases st.parentMap (fuel + 4) pc, findRowByCase st x ≠ some row) :
    (∃ r2, (updateWeightRow (fuel + 4) st row).rows[row]? = some r2 ∧
        r2.weight = "" ∧ r2.startDate = r.startDate ∧ r2.steps = r.steps ∧
        r2.stepsEnabled = r.stepsEnabled ∧
        (r2.endDate = r.endDate ∨ r2.endDate = 0) ∧ yearOf r2.endDate = 2000) ∧
      gatherChildDates st [row] = [] ∧
      serializeDate r.endDate = "" ∧
      r.endDate ≤ 365 := by
  refine ⟨?_, ?_, ?_, (yearOf_eq_2000_iff r.endDate).mp h2⟩
  · have hEw : endToWeight r.startDate r.endDate = "" := by
      unfold endToWeight
      rw [if_pos h2]
    simp only [updateWeightRow]
    rw [show fuel + 4 = (fuel + 3) + 1 from rfl, runSig_uw_some (fuel + 3) st row r h]
    rw [hEw]
    by_cases hw0 : "" = r.weight
    · rw [if_pos hw0]
      exact ⟨r, h, hw0.symm, rfl, rfl, rfl, Or.inl rfl, h2⟩
    · rw [if_neg hw0]
      have hW : (updateRowAt st row (fun rr => { rr with weight := "" })).rows[row]? =
          some { r with weight := "" } := by
        rw [updateRowAt_at, h]
        rfl
      have hshW : sameShape st (updateRowAt st row (fun rr => { rr with weight := "" })) := by
        refine sameShape_updateRowAt st row _ ?_
        intro rr
        rfl
      rw [show fuel + 3 = (fuel + 2) + 1 from rfl,
        runSig_ue_some (fuel + 2) _ row { r with weight := "" } hW]
      rw [if_pos (show normalizeWeightText ({ r with weight := "" } : Row).weight = []
        from by
          show normalizeWeightText "" = []
          decide)]
      rw [show fuel + 2 = (fuel + 1) + 1 from rfl,
        runSig_endSet_some (fuel + 1) _ row 0 { r with weight := "" } hW]
      by_cases h0 : (0 : Nat) = ({ r with weight := "" } : Row).endDate
      · rw [if_pos h0]
        refine ⟨{ r with weight := "" }, hW, rfl, rfl, rfl, rfl, Or.inl rfl, h2⟩
      · rw [if_neg h0]
        have hD : (updateRowAt (updateRowAt st row (fun rr => { rr with weight := "" })) row
            (fun rr => { rr with endDate := 0 })).rows[row]? =
            some { r with weight := "", endDate := 0 } := by
          rw [updateRowAt_at, hW]
          rfl
        have hshD : sameShape st (updateRowAt (updateRowAt st row
            (fun rr => { rr with weight := "" })) row (fun rr => { rr with endDate := 0 })) := by
          refine sameShape_trans hshW (sameShape_updateRowAt _ row _ ?_)
          intro rr
          rfl
        have huw : runSig (fuel + 1) (updateRowAt (updateRowAt st row
            (fun rr => { rr with weight := "" })) row (fun rr => { rr with endDate := 0 }))
            (Sig.uw row) =
            updateRowAt (updateRowAt st row (fun rr => { rr with weight := "" })) row
              (fun rr => { rr with endDate := 0 }) := by
          rw [runSig_uw_some fuel _ row _ hD]
          simp only []
          rw [if_pos (show endToWeight r.startDate 0 = "" from by
            unfold endToWeight
            rw [if_pos (show yearOf 0 = 2000 from rfl)])]
        rw [huw]
        have hfr : (runSig (fuel + 1) (updateRowAt (updateRowAt st row
            (fun rr => { rr with weight := "" })) row (fun rr => { rr with endDate := 0 }))
            (Sig.rowParent row)).rows[row]? =
            some { r with weight := "", endDate := 0 } := by
          rw [rowParent_frame_self (fuel + 1) _ row ?_]
          · exact hD
          · intro g hg x hx
            rw [hshD.1, getCaseAtRow_shape hshD row] at hg
            rw [hshD.1] at hx
            rw [findRowByCase_shape hshD x]
            refine hchain g hg x ?_
            have hx2 := chainCases_add 3 hx
            rw [show fuel + 1 + 3 = fuel + 4 from by omega] at hx2
            exact hx2
        rw [hfr]
        exact ⟨{ r with weight := "", endDate := 0 }, rfl, rfl, rfl, rfl, rfl, Or.inr rfl, rfl⟩
  · unfold gatherChildDates
    simp [h, h2]
  · unfold serializeDate
    rw [if_neg (by omega)]

/-- C10 witness: a task whose end date is 2000-06-15 (day 166 — inside year
2000 but not the reserved 2000-01-01): its weight cell stays cleared, it is
excluded from the parent date aggregation, and its end date serializes
empty. -/
theorem c10_witness :
    (∃ r2, (updateWeightRow 4 stateC10 0).rows[0]? = some r2 ∧
        r2.weight = "" ∧ r2.startDate = (mkRow "T10" "" 8766 166 "").startDate ∧
        r2.steps = (mkRow "T10" "" 8766 166 "").steps ∧
        r2.stepsEnabled = (mkRow "T10" "" 8766 166 "").stepsEnabled ∧
        (r2.endDate = (mkRow "T10" "" 8766 166 "").endDate ∨ r2.endDate = 0) ∧
        yearOf r2.endDate = 2000) ∧
      gatherChildDates stateC10 [0] = [] ∧
      serializeDate (mkRow "T10" "" 8766 166 "").endDate = "" ∧
      (mkRow "T10" "" 8766 166 "").endDate ≤ 365 :=
  c10_theorem 0 stateC10 0 (mkRow "T10" "" 8766 166 "") (by decide) (by decide)
    (fun pc hpc => by
      rw [show lookupStr stateC10.parentMap (getCaseAtRow stateC10 0) = none
        from by decide] at hpc
      cases hpc)
